import Mathlib

/-!
Shallow embedding of the venn.ts layout core, and proofs of the frozen
claims about it.

Sources embedded here:
* `src/unnamed/part_001` — vector utilities (`dot`, `norm2`, `weightedSum`,
  `scale`), `bisect`, `conjugateGradient` and its private `wolfeLineSearch`
  (namespace `Fmin`, numbers as `ℚ`: every operation these functions perform
  is field arithmetic and comparison, so the idealisation of IEEE doubles by
  exact rationals keeps all definitions executable);
* `src/lib/src/moved_src/bigRewrites.ts` — the second `conjugateGradient`
  (namespace `BigRewrites`);
* `src/lib/src/moved_src/nelderMead.ts` — `nelderMead2d` (namespace
  `NelderMead`, numbers as `ℝ`);
* `src/unnamed/part_002` — the circle-geometry kernel (namespace
  `CircleIntersection`, numbers as `ℝ`);
* `src/lib/src/moved_src/diagram.ts` — `circleMargin`, `computeTextCentre`,
  `circlePath`, `circleFromPath` (namespace `Diagram`).

JavaScript semantics that matter to the claims and are modelled explicitly:
* `Array.prototype.map` allocates a fresh array and never writes its
  receiver; a call statement whose result is discarded therefore has no
  effect on the receiver.
* `new Array(n)` has length `n` but no present elements ("holes");
  `Array.prototype.map` invokes its callback only at present indices.
* reading a property of `undefined` (an array hole, or a member an object
  does not have) throws a `TypeError`; such computations are embedded as
  `Except String` values.
-/

namespace Fmin

/-- One point tracked by the conjugate-gradient code: coordinates `x`, the
objective value `fx` there, and the gradient `fxprime` (part_001 lines
87-91). -/
structure CGPoint where
  x : List ℚ
  fx : ℚ
  fxprime : List ℚ
deriving DecidableEq, Repr

/-- `dot(a, b)` of part_001 lines 15-25: zip the vectors and sum the products.
The source first throws when the lengths differ; every theorem below quotes
`dot` only under the same-length hypotheses the claims presuppose, where the
zip computes exactly the source's sum. -/
def dot (a b : List ℚ) : ℚ :=
  (a.zip b).foldl (fun p c => p + c.1 * c.2) 0

/-- `dot(a, a)`, the square of `norm2(a)` (part_001 lines 27-29).  The source
compares `norm2(v) <= 1e-5`; both sides being non-negative, that comparison
is equivalent to `norm2sq v ≤ 1e-10`, which is how the square-root-free
embedding states it. -/
def norm2sq (a : List ℚ) : ℚ :=
  dot a a

/-- `weightedSum(ret, w1, v1, w2, v2)` of part_001 lines 31-39:
`return ret.map((_item, index) => w1 * v1[index] + w2 * v2[index])`.
`Array.prototype.map` builds a fresh array over the receiver's indices; the
receiver's elements are bound to the ignored `_item` parameter and the
receiver is never written.  Out-of-range reads `v[index]` are JavaScript
`undefined`; the claims only quote the function for equal lengths, where
`getD` reads the actual entries. -/
def weightedSum (ret : List ℚ) (w1 : ℚ) (v1 : List ℚ) (w2 : ℚ) (v2 : List ℚ) : List ℚ :=
  (List.range ret.length).map fun index => w1 * v1.getD index 0 + w2 * v2.getD index 0

/-- `scale(ret, value, c)` of part_001 lines 41-45 writes `value[i] * c` into
`ret[i]` for every index of `value`; this embedding returns the new contents
of `ret` (the claims use it only with `ret.length = value.length`, where the
loop overwrites `ret` with `value.map (· * c)`). -/
def scale (value : List ℚ) (c : ℚ) : List ℚ :=
  value.map fun v => v * c

/-- The loop of `bisect` (part_001 lines 71-83).  `fa` is `f(a)` computed once
before the loop and never updated.  Each pass halves `delta`, probes
`mid = a + delta`, moves `a` to `mid` when `f(mid)` has the sign of `fa`, and
returns `mid` as soon as `|delta| < tolerance` or `f(mid) = 0`; when the fuel
(`maxiterations`) runs out the source returns `a + delta` (line 84). -/
def bisectLoop (f : ℚ → ℚ) (fa tolerance : ℚ) : ℚ → ℚ → ℕ → ℚ
  | a, delta, 0 => a + delta
  | a, delta, n + 1 =>
    let delta' := delta / 2
    let mid := a + delta'
    let fmid := f mid
    let a' := if fmid * fa ≥ 0 then mid else a
    if |delta'| < tolerance ∨ fmid = 0 then mid
    else bisectLoop f fa tolerance a' delta' n

/-- `bisect(f, a, b, parameters)` of part_001 lines 54-85.  The
`parameters.maxiterations || 100` / `parameters.tolerance || 1e-10`
defaulting is immaterial to the claims, so the two knobs are passed
directly.  A same-sign bracket throws (line 65), embedded as `.error`. -/
def bisect (f : ℚ → ℚ) (a b : ℚ) (maxiterations : ℕ) (tolerance : ℚ) : Except String ℚ :=
  let fa := f a
  let fb := f b
  if fa * fb > 0 then .error "initial bisect points must have opposite signs"
  else if fa = 0 then .ok a
  else if fb = 0 then .ok b
  else .ok (bisectLoop f fa tolerance a (b - a) maxiterations)

/-- Which `return` statement of `wolfeLineSearch` produced the result:
the outer loop's curvature acceptance (line 220), `zoom`'s acceptance
(line 195), `zoom`'s 16-iteration fall-through `return 0` (line 208), or the
outer loop's 10-iteration fall-through `return a` (line 232). -/
inductive WolfeExit where
  | outerAccept
  | zoomAccept
  | zoomExhaust
  | outerExhaust
deriving DecidableEq, Repr

/-- The state `wolfeLineSearch` leaves behind: the returned step size, the
`next` record it mutated, and which `return` fired. -/
structure WolfeResult where
  alpha : ℚ
  next : CGPoint
  exit : WolfeExit
deriving DecidableEq, Repr

/-- The `zoom(a_lo, a_high, phi_lo)` closure of `wolfeLineSearch` (part_001
lines 184-209), 16 bisection tries.  The objective `f` returns the value and
the gradient it writes into its out-parameter.  Each pass executes
`weightedSum(next.x, 1.0, current.x, a, pk)` — a call whose fresh result is
discarded and which writes nothing into `next.x`, so `next.x` stays what the
caller passed — then evaluates `phi = next.fx = f(next.x, next.fxprime)` and
`phiPrime = dot(next.fxprime, pk)`. -/
def zoomLoop (f : List ℚ → ℚ × List ℚ) (pk : List ℚ) (phi0 phiPrime0 c1 c2 : ℚ) :
    ℚ → ℚ → ℚ → CGPoint → ℕ → WolfeResult
  | _a_lo, _a_high, _phi_lo, next, 0 => ⟨0, next, .zoomExhaust⟩
  | a_lo, a_high, phi_lo, next, fuel + 1 =>
    let a := (a_lo + a_high) / 2
    let eval := f next.x
    let next' : CGPoint := { next with fx := eval.1, fxprime := eval.2 }
    let phi := eval.1
    let phiPrime := dot eval.2 pk
    if phi > phi0 + c1 * a * phiPrime0 ∨ phi ≥ phi_lo then
      zoomLoop f pk phi0 phiPrime0 c1 c2 a_lo a phi_lo next' fuel
    else if |phiPrime| ≤ -c2 * phiPrime0 then ⟨a, next', .zoomAccept⟩
    else
      let a_high' := if phiPrime * (a_high - a_lo) ≥ 0 then a_lo else a_high
      zoomLoop f pk phi0 phiPrime0 c1 c2 a a_high' phi next' fuel

/-- The outer doubling loop of `wolfeLineSearch` (part_001 lines 211-232),
`for (iteration = 0; iteration < 10; ++iteration)`.  As in `zoom`, the
`weightedSum(next.x, 1.0, current.x, a, pk)` statement discards its result
and leaves `next.x` unchanged.  The `(iteration && phi >= phi_old)` guard is
`iteration ≠ 0 ∧ phi ≥ phi_old`.  Falling out of the loop returns the
current `a` (line 232). -/
def wolfeOuterLoop (f : List ℚ → ℚ × List ℚ) (pk : List ℚ) (phi0 phiPrime0 c1 c2 : ℚ)
    (iteration : ℕ) (a a0 phi_old : ℚ) (next : CGPoint) : WolfeResult :=
  if h : 10 ≤ iteration then ⟨a, next, .outerExhaust⟩
  else
    let eval := f next.x
    let next' : CGPoint := { next with fx := eval.1, fxprime := eval.2 }
    let phi := eval.1
    let phiPrime := dot eval.2 pk
    if phi > phi0 + c1 * a * phiPrime0 ∨ (iteration ≠ 0 ∧ phi ≥ phi_old) then
      zoomLoop f pk phi0 phiPrime0 c1 c2 a0 a phi_old next' 16
    else if |phiPrime| ≤ -c2 * phiPrime0 then ⟨a, next', .outerAccept⟩
    else if phiPrime ≥ 0 then
      zoomLoop f pk phi0 phiPrime0 c1 c2 a a0 phi next' 16
    else
      wolfeOuterLoop f pk phi0 phiPrime0 c1 c2 (iteration + 1) (a * 2) a phi next'
termination_by 10 - iteration
decreasing_by omega

/-- `wolfeLineSearch(f, pk, current, next, a, c1, c2)` of part_001 lines
172-233.  `phi0 = current.fx`, `phiPrime0 = dot(current.fxprime, pk)`,
`a = a || 1` (`0` is falsy), `a0 = 0`, `phi_old = phi0`.  The call sites pass
five arguments, so `c1 = 1e-6` and `c2 = 0.1` by the `||` defaulting; the two
constants are passed explicitly here. -/
def wolfeLineSearch (f : List ℚ → ℚ × List ℚ) (pk : List ℚ) (current next : CGPoint)
    (a c1 c2 : ℚ) : WolfeResult :=
  let phi0 := current.fx
  let phiPrime0 := dot current.fxprime pk
  let aeff := if a = 0 then 1 else a
  wolfeOuterLoop f pk phi0 phiPrime0 c1 c2 0 aeff 0 phi0 next

/-- `c1 = c1 || 1e-6` (part_001 line 181). -/
def c1Default : ℚ := 1e-6

/-- `c2 = c2 || 0.1` (part_001 line 182). -/
def c2Default : ℚ := 0.1

/-- `norm2(current.fxprime) <= 1e-5` squared: `1e-10` (see `norm2sq`). -/
def gradTolSq : ℚ := 1e-10

/-- The mutable locals of `conjugateGradient`'s loop (part_001 lines 93-163):
`current`, `next`, the direction `pk`, the scratch vector `yk`, the step `a`,
whether the `break` on line 149 has fired, and — instrumentation for the
iteration-count claims — how many times the loop body has executed. -/
structure CGState where
  current : CGPoint
  next : CGPoint
  pk : List ℚ
  yk : List ℚ
  a : ℚ
  stopped : Bool
  count : ℕ
deriving DecidableEq, Repr

/-- One pass of the `for (let i = 0; i < maxIterations; ++i)` body of
`conjugateGradient` (part_001 lines 117-151); `bigRewrites.ts` lines 92-123
are the same statements up to the field name `arguments` for `x` and the
construction of a dead history record.  When the `break` flag is set the body
does not run (the loop has exited).

`a = wolfeLineSearch(f, pk, current, next, a)` updates `next` in place and
yields the step.  On `!a`, `scale(pk, current.fxprime, -1)` resets the
direction.  Otherwise the Polak–Ribière update is attempted:
`weightedSum(yk, 1, next.fxprime, -1, current.fxprime)` and
`weightedSum(pk, beta_k, pk, -1, next.fxprime)` both discard the fresh array
`weightedSum` returns, so `yk` and `pk` are left unchanged (`delta_k` and
`beta_k` are computed but their only consumer is the discarded call); then
`current` and `next` are swapped.  Finally `norm2(current.fxprime) <= 1e-5`
breaks the loop. -/
def cgIterate (f : List ℚ → ℚ × List ℚ) (st : CGState) : CGState :=
  if st.stopped then st
  else
    let w := wolfeLineSearch f st.pk st.current st.next st.a c1Default c2Default
    let a := w.alpha
    let next := w.next
    if a = 0 then
      let pk := scale st.current.fxprime (-1)
      let stop := norm2sq st.current.fxprime ≤ gradTolSq
      ⟨st.current, next, pk, st.yk, a, stop, st.count + 1⟩
    else
      let delta_k := dot st.current.fxprime st.current.fxprime
      let _beta_k := max 0 (dot st.yk next.fxprime / delta_k)
      let current := next
      let next2 := st.current
      let stop := norm2sq current.fxprime ≤ gradTolSq
      ⟨current, next2, st.pk, st.yk, a, stop, st.count + 1⟩

/-- What both conjugate-gradient implementations return: the final `current`
record, plus the instrumented iteration count. -/
structure CGOutput where
  x : List ℚ
  fx : ℚ
  fxprime : List ℚ
  iterations : ℕ
deriving DecidableEq, Repr

/-- `params.maxIterations || initial.length * 20` (part_001 line 111):
JavaScript `||` falls through on `undefined` and on `0`. -/
def jsOrNat (given : Option ℕ) (dflt : ℕ) : ℕ :=
  match given with
  | none => dflt
  | some 0 => dflt
  | some n => n

/-- The state every `conjugateGradient` run starts from (part_001 lines
94-115): `current = {x: copy(initial), fx: f(initial), fxprime: ∇f(initial)}`
(the call `current.fx = f(current.x, current.fxprime)` writes the gradient
into `current.fxprime`), `next = {x: copy(initial), fx: 0, fxprime:
copy(initial)}`, `yk = copy(initial)`, `a = 1`, and
`pk = scale(copy(current.fxprime), current.fxprime, -1)`. -/
def cgInit (f : List ℚ → ℚ × List ℚ) (initial : List ℚ) : CGState :=
  let fe := f initial
  { current := ⟨initial, fe.1, fe.2⟩
    next := ⟨initial, 0, initial⟩
    pk := scale fe.2 (-1)
    yk := initial
    a := 1
    stopped := false
    count := 0 }

/-- `conjugateGradient(f, initial, params)` of part_001 lines 93-163: the
loop body runs up to `maxIterations` times (the optional history recording is
omitted — the claims do not mention it) and the function returns `current`. -/
def conjugateGradient (f : List ℚ → ℚ × List ℚ) (initial : List ℚ)
    (paramsMaxIterations : Option ℕ) : CGOutput :=
  let maxIterations := jsOrNat paramsMaxIterations (initial.length * 20)
  let sF := (List.range maxIterations).foldl (fun st _ => cgIterate f st) (cgInit f initial)
  ⟨sF.current.x, sF.current.fx, sF.current.fxprime, sF.count⟩

end Fmin

namespace BigRewrites

/-- A fold over the slots of a JavaScript array that applies the body only at
present indices: `Array.prototype.map` skips holes, and `new Array(n)` is all
holes.  This is the control structure of `history.map(...)` in
`bigRewrites.ts` lines 91-123. -/
def jsHoleyFold (body : σ → σ) (slots : List (Option Unit)) (s : σ) : σ :=
  slots.foldl (fun st slot => match slot with | none => st | some _ => body st) s

/-- `conjugateGradient(f, initial, maxIterations?)` of `bigRewrites.ts` lines
62-126.  Initialisation (lines 63-89) is the same as part_001's
(`Fmin.cgInit`); `maxIter = maxIterations ?? initial.length * 20` (nullish
coalescing, line 85); then `const history = new Array(maxIter)` — `maxIter`
holes — and `history.map(callback)` runs the loop body (the same statements
as part_001's loop body, `Fmin.cgIterate`) once per present slot; finally
`current` is returned (line 125). -/
def conjugateGradient (f : List ℚ → ℚ × List ℚ) (initial : List ℚ)
    (maxIterations : Option ℕ) : Fmin.CGOutput :=
  let maxIter := maxIterations.getD (initial.length * 20)
  let sF := jsHoleyFold (Fmin.cgIterate f) (List.replicate maxIter none) (Fmin.cgInit f initial)
  ⟨sF.current.x, sF.current.fx, sF.current.fxprime, sF.count⟩

end BigRewrites

namespace NelderMead

/-- `NelderMead2dParameters` of `nelderMead.ts` lines 3-12. -/
structure NMParams where
  nonZeroDelta : ℝ
  zeroDelta : ℝ
  minErrorDelta : ℝ
  minTolerance : ℝ
  rho : ℝ
  chi : ℝ
  psi : ℝ
  sigma : ℝ

/-- `defaultParameters` of `nelderMead.ts` lines 14-23. -/
noncomputable def defaultParameters : NMParams :=
  { nonZeroDelta := 1.05
    zeroDelta := 0.001
    minErrorDelta := 1e-6
    minTolerance := 1e-5
    rho := 1
    chi := 2
    psi := -0.5
    sigma := 0.5 }

/-- The object spread `{ ...parameters, ...defaultParameters }` on
`nelderMead.ts` line 65.  A later spread overwrites every property the
earlier one set; `defaultParameters` provides all eight fields, so each field
of the result is the default's, whatever the caller configured. -/
def mergeParams (parameters dflt : NMParams) : NMParams :=
  { nonZeroDelta := dflt.nonZeroDelta
    zeroDelta := dflt.zeroDelta
    minErrorDelta := dflt.minErrorDelta
    minTolerance := dflt.minTolerance
    rho := dflt.rho
    chi := dflt.chi
    psi := dflt.psi
    sigma := dflt.sigma }

/-- One filled slot of the simplex array: the vertex `coordinates`, its
objective value `fx` and its `id` (the `SimplexPoint2d` interface,
`nelderMead.ts` lines 33-41). -/
structure SimplexEntry where
  coordinates : List ℝ
  fx : ℝ
  id : ℕ

/-- The returned `Solution` (`nelderMead.ts` lines 45-48). -/
structure NMSolution where
  value_at_peak : ℝ
  index_at_peak : SimplexEntry

/-- The simplex construction loop of `nelderMead2d` (`nelderMead.ts` lines
77-83): for `i` from `0` while `i < N` (the remaining count is the fuel),
`point = shallowCopy(initialGuess)` with
`point[i] = point[i] ? point[i] * nonZeroDelta : zeroDelta` (`0` is falsy),
then the three assignments `simplex[i + 1].coordinates = point`,
`simplex[i + 1].fx = f(point)` and `simplex[i + 1].id = i + 1`.  Writing a
property of an array slot that holds no object (an `undefined` hole of
`new Array(N + 1)`) throws a `TypeError`. -/
noncomputable def buildSimplexLoop (f : List ℝ → ℝ) (nonZeroDelta zeroDelta : ℝ)
    (initialGuess : List ℝ) :
    List (Option SimplexEntry) → ℕ → ℕ → Except String (List (Option SimplexEntry))
  | simplex, _i, 0 => .ok simplex
  | simplex, i, fuel + 1 =>
    let gi := initialGuess.getD i 0
    let pointI := if gi = 0 then zeroDelta else gi * nonZeroDelta
    let point := initialGuess.set i pointI
    match simplex.getD (i + 1) none with
    | none => .error "TypeError: cannot set properties of undefined (setting coordinates)"
    | some _slot =>
      let entry : SimplexEntry := ⟨point, f point, i + 1⟩
      buildSimplexLoop f nonZeroDelta zeroDelta initialGuess
        (simplex.set (i + 1) (some entry)) (i + 1) fuel

/-- `nelderMead2d(f, initialGuess, parameters)` of `nelderMead.ts` lines
51-198.  The destructured tolerances come from
`{ ...parameters, ...defaultParameters }` (see `mergeParams`);
`maxIterations = initialGuess.length * 200` (line 66, the caller's value is
not consulted).  `simplex = new Array(N + 1)` starts as `N + 1` holes;
`simplex[0]` is set to `initialGuess` with `fx = f(initialGuess)` and
`id = 0` glued on (lines 73-76), and the loop of `buildSimplexLoop` fills
slots `1..N`.  Reaching the main `for (iteration = 0; iteration <
maxIterations; ...)` loop requires that construction succeeded, which (see
`nelderMead2d_construction_throws`) forces `initialGuess.length = 0`; then
`maxIterations = 0 * 200 = 0`, the loop body never executes, and the
function returns `{value_at_peak: simplex[0].fx, index_at_peak: simplex[0]}`
of the sorted one-entry simplex. -/
noncomputable def nelderMead2d (f : List ℝ → ℝ) (initialGuess : List ℝ)
    (parameters : NMParams) : Except String NMSolution :=
  let merged := mergeParams parameters defaultParameters
  let N := initialGuess.length
  let entry0 : SimplexEntry := ⟨initialGuess, f initialGuess, 0⟩
  let simplexInit : List (Option SimplexEntry) := some entry0 :: List.replicate N none
  match buildSimplexLoop f merged.nonZeroDelta merged.zeroDelta initialGuess simplexInit 0 N with
  | .error e => .error e
  | .ok simplex =>
    match simplex.getD 0 none with
    | some best => .ok ⟨best.fx, best⟩
    | none => .error "TypeError: cannot read properties of undefined (reading fx)"

end NelderMead

namespace CircleIntersection

/-- `Point2d` of `types.ts`. -/
structure Point2d where
  x : ℝ
  y : ℝ

/-- `Circle` of `types.ts`. -/
structure Circle where
  x : ℝ
  y : ℝ
  radius : ℝ

/-- The centre of a circle as a point; the source passes circles directly to
`distance`, which reads only `x` and `y`. -/
def Circle.center (c : Circle) : Point2d := ⟨c.x, c.y⟩

/-- Modelled from the spec: the constant `SMALL` imported from `./consts`, a
file not among the reviewed sources.  The spec calls it "a small absolute
epsilon tolerance (denoted `SMALL`)"; its exact value does not affect any
claim proved here. -/
noncomputable def SMALL : ℝ := 1e-10

/-- `distance(p1, p2)` of part_002 lines 169-173. -/
noncomputable def distance (p1 p2 : Point2d) : ℝ :=
  Real.sqrt ((p1.x - p2.x) * (p1.x - p2.x) + (p1.y - p2.y) * (p1.y - p2.y))

/-- `circleArea(r, width)`, the circular-segment area of part_002 lines
161-166. -/
noncomputable def circleArea (r width : ℝ) : ℝ :=
  r * r * Real.arccos (1 - width / r) - (r - width) * Real.sqrt (width * (2 * r - width))

/-- `circleOverlap(r1, r2, d)` of part_002 lines 178-191: `0` when
`d >= r1 + r2`; `π·min(r1,r2)²` when `d <= |r1 - r2|`; otherwise the sum of
the two circular-segment areas at widths
`wi = ri - (d² - rj² + ri²) / (2d)`. -/
noncomputable def circleOverlap (r1 r2 d : ℝ) : ℝ :=
  if d ≥ r1 + r2 then 0
  else if d ≤ |r1 - r2| then
    let r := min r1 r2
    Real.pi * r * r
  else
    let w1 := r1 - (d * d - r2 * r2 + r1 * r1) / (2 * d)
    let w2 := r2 - (d * d - r1 * r1 + r2 * r2) / (2 * d)
    circleArea r1 w1 + circleArea r2 w2

/-- The segment width `w1 = r1 - (d² - r2² + r1²) / (2d)` used by
`circleOverlap`'s middle branch (part_002 line 188); the second width is
`segWidth r2 r1 d`. -/
noncomputable def segWidth (r1 r2 d : ℝ) : ℝ :=
  r1 - (d * d - r2 * r2 + r1 * r1) / (2 * d)

/-- The middle branch of `circleOverlap` (part_002 line 190) as a function
of the centre distance: the sum of the two circular-segment areas. -/
noncomputable def segSum (r1 r2 d : ℝ) : ℝ :=
  circleArea r1 (segWidth r1 r2 d) + circleArea r2 (segWidth r2 r1 d)

/-- `circleCircleIntersection(p1, p2)` of part_002 lines 197-219: no points
when too far (`d >= r1 + r2`) or self-contained (`d <= |r1 - r2|`), else the
two law-of-cosines intersection points. -/
noncomputable def circleCircleIntersection (p1 p2 : Circle) : List Point2d :=
  let d := distance p1.center p2.center
  let r1 := p1.radius
  let r2 := p2.radius
  if d ≥ r1 + r2 ∨ d ≤ |r1 - r2| then []
  else
    let a := (r1 * r1 - r2 * r2 + d * d) / (2 * d)
    let h := Real.sqrt (r1 * r1 - a * a)
    let x0 := p1.x + a * (p2.x - p1.x) / d
    let y0 := p1.y + a * (p2.y - p1.y) / d
    let rx := -(p2.y - p1.y) * (h / d)
    let ry := -(p2.x - p1.x) * (h / d)
    [⟨x0 + rx, y0 - ry⟩, ⟨x0 - rx, y0 + ry⟩]

/-- An intersection point tagged with `parentIndex`, the indices of its two
parent circles (`getIntersectionPoints` mutates `p.parentIndex = [i, j]`,
part_002 line 152). -/
structure IPoint where
  x : ℝ
  y : ℝ
  parentIndex : List ℕ

/-- `getIntersectionPoints(circles)` of part_002 lines 145-158: for every
pair `i < j`, the points of `circleCircleIntersection(circles[i],
circles[j])` tagged with `[i, j]`. -/
noncomputable def getIntersectionPoints (circles : List Circle) : List IPoint :=
  ((List.range circles.length).map fun i =>
    ((List.range circles.length).map fun j =>
      if i < j then
        (circleCircleIntersection (circles.getD i ⟨0, 0, 0⟩) (circles.getD j ⟨0, 0, 0⟩)).map
          fun p => ({ x := p.x, y := p.y, parentIndex := [i, j] } : IPoint)
      else []).flatten).flatten

/-- `containedInCircles(point, circles)` of part_002 lines 138-141. -/
noncomputable def containedInCircles (point : Point2d) (circles : List Circle) : Bool :=
  circles.all fun c => decide (distance point c.center ≤ c.radius + SMALL)

/-- `getSubPolygonArea(p2, p1)` of part_002 lines 133-135, the shoelace
term. -/
def getSubPolygonArea (p2 p1 : IPoint) : ℝ :=
  (p2.x + p1.x) * (p1.y - p2.y)

/-- `getCenter(points)` of part_002 lines 222-232: the arithmetic mean. -/
noncomputable def getCenter (points : List Point2d) : Point2d :=
  let s := points.foldl (fun acc p => (acc.1 + p.x, acc.2 + p.y)) ((0 : ℝ), (0 : ℝ))
  ⟨s.1 / points.length, s.2 / points.length⟩

/-- JavaScript `Math.atan2(y, x)` on finite arguments. -/
noncomputable def atan2 (y x : ℝ) : ℝ :=
  if 0 < x then Real.arctan (y / x)
  else if x < 0 ∧ 0 ≤ y then Real.arctan (y / x) + Real.pi
  else if x < 0 ∧ y < 0 then Real.arctan (y / x) - Real.pi
  else if x = 0 ∧ 0 < y then Real.pi / 2
  else if x = 0 ∧ y < 0 then -(Real.pi / 2)
  else 0

/-- `Arc` of `types.ts`. -/
structure Arc where
  circle : Circle
  width : ℝ
  p1 : Point2d
  p2 : Point2d

/-- The inner `for (j = 0; j < p1.parentIndex.length; ++j)` of
`intersectionArea` (part_002 lines 53-84): among the circles that are a
parent of both `p1` and `p2`, pick the arc of smallest width, where the
width is the distance from the chord midpoint to the circle point at the
angle halfway between the two endpoints, clamped to `2 * radius`. -/
noncomputable def pickArc (circles : List Circle) (p1 p2 : IPoint) (midPoint : Point2d) :
    Option Arc :=
  p1.parentIndex.foldl
    (fun arc j =>
      if p2.parentIndex.contains j then
        let circle := circles.getD j ⟨0, 0, 0⟩
        let a1 := atan2 (p1.x - circle.x) (p1.y - circle.y)
        let a2 := atan2 (p2.x - circle.x) (p2.y - circle.y)
        let angleDiff0 := a2 - a1
        let angleDiff := if angleDiff0 < 0 then angleDiff0 + 2 * Real.pi else angleDiff0
        let a := a2 - angleDiff / 2
        let width0 := distance midPoint
          ⟨circle.x + circle.radius * Real.sin a, circle.y + circle.radius * Real.cos a⟩
        let width := min width0 (circle.radius * 2)
        match arc with
        | none => some ⟨circle, width, ⟨p1.x, p1.y⟩, ⟨p2.x, p2.y⟩⟩
        | some old =>
          if old.width > width then some ⟨circle, width, ⟨p1.x, p1.y⟩, ⟨p2.x, p2.y⟩⟩ else arc
      else arc)
    none

/-- The accumulator of `intersectionArea`'s main `forEach` (part_002 lines
41-91): the running polygon and arc areas, the arc list, and the previous
point `p2` (updated only when an arc was found). -/
structure MainAcc where
  polygonArea : ℝ
  arcArea : ℝ
  arcs : List Arc
  p2 : IPoint

/-- The `sortedPoints.forEach((p1) => ...)` body of `intersectionArea`
(part_002 lines 44-91), starting from `p2 = sortedPoints.at(-1)`. -/
noncomputable def mainLoop (circles : List Circle) (sortedPoints : List IPoint) : MainAcc :=
  sortedPoints.foldl
    (fun acc p1 =>
      let polygonArea := acc.polygonArea + getSubPolygonArea acc.p2 p1
      let midPoint : Point2d := ⟨(p1.x + acc.p2.x) / 2, (p1.y + acc.p2.y) / 2⟩
      match pickArc circles p1 acc.p2 midPoint with
      | some arc =>
        ⟨polygonArea, acc.arcArea + circleArea arc.circle.radius arc.width,
          acc.arcs ++ [arc], p1⟩
      | none => ⟨polygonArea, acc.arcArea, acc.arcs, acc.p2⟩)
    ⟨0, 0, [], sortedPoints.getLastD ⟨0, 0, []⟩⟩

/-- The sort of the inner points by angle around their centre, descending
(part_002 lines 26-32); ties between equal angles are broken arbitrarily by
the JavaScript sort and are immaterial to the claims. -/
noncomputable def sortByAngleDesc (center : Point2d) (pts : List IPoint) : List IPoint :=
  ((pts.map fun p => (p, atan2 (p.x - center.x) (p.y - center.y))).mergeSort
    fun a b => decide (b.2 ≤ a.2)).map (·.1)

/-- `intersectionArea(circles, stats)` of part_002 lines 8-131 (the returned
number; the `stats` out-parameter receives the same decomposition and is not
needed by the claims).  With at least two inner points the area is the
shoelace polygon area plus the arc-segment areas; otherwise the smallest
circle `smt` is found by `reduce` — which throws on an empty array, so the
embedding is quoted only for non-empty inputs — and
`smallestIsContained = circles.every(c => distance(c, smt) >
|smt.radius - c.radius|)` decides between `π·smt.radius²` and `0`. -/
noncomputable def intersectionArea (circles : List Circle) : ℝ :=
  let intersectionPoints := getIntersectionPoints circles
  let innerPoints := intersectionPoints.filter fun p =>
    containedInCircles ⟨p.x, p.y⟩ circles
  if 1 < innerPoints.length then
    let center := getCenter (innerPoints.map fun p => ⟨p.x, p.y⟩)
    let sortedPoints := sortByAngleDesc center innerPoints
    let acc := mainLoop circles sortedPoints
    acc.arcArea + acc.polygonArea / 2
  else
    match circles with
    | [] => 0
    | c :: rest =>
      let smt := rest.foldl (fun prev curr => if prev.radius < curr.radius then prev else curr) c
      let smallestIsContained := circles.all fun c2 =>
        decide (distance c2.center smt.center > |smt.radius - c2.radius|)
      if smallestIsContained then smt.radius * smt.radius * Real.pi else 0

end CircleIntersection

namespace Diagram

open CircleIntersection

/-- `circleMargin(current, interior, exterior)` of `diagram.ts` lines 63-81:
start from the first interior circle's clearance `radius - distance`, take
the minimum (`if (m <= margin) margin = m`) over the remaining interior
circles and over each exterior circle's `distance - radius`.  The source
reads `interior[0]` unconditionally and throws for an empty `interior`; the
embedding is quoted only for non-empty `interior`. -/
noncomputable def circleMargin (current : Point2d) (interior exterior : List CircleIntersection.Circle) : ℝ :=
  match interior with
  | [] => 0
  | c0 :: rest =>
    let margin0 := c0.radius - distance c0.center current
    let m1 := rest.foldl
      (fun margin c =>
        let m := c.radius - distance c.center current
        if m ≤ margin then m else margin) margin0
    exterior.foldl
      (fun margin c =>
        let m := distance c.center current - c.radius
        if m ≤ margin then m else margin) m1

/-- The five sample points pushed for one interior circle (`diagram.ts`
lines 91-98): the centre and the four half-radius offsets. -/
noncomputable def textSamples (c : CircleIntersection.Circle) : List Point2d :=
  [⟨c.x, c.y⟩, ⟨c.x + c.radius / 2, c.y⟩, ⟨c.x - c.radius / 2, c.y⟩,
    ⟨c.x, c.y + c.radius / 2⟩, ⟨c.x, c.y - c.radius / 2⟩]

/-- `computeTextCentre(interior, exterior)` of `diagram.ts` lines 86-157.
For empty `interior` the sample list is empty and
`circleMargin(points[0], ...)` reads a property of `undefined`.  Otherwise
the best-margin sample (`if (m >= margin)` keeps the later of tied samples)
seeds `nelderMead2d(p => -1 * circleMargin({x: p[0], y: p[1]}, interior,
exterior), [initial.x, initial.y], {maxIterations: 500, minErrorDelta:
1e-10})` — under the spread on `nelderMead.ts` line 65 every field of that
parameter object is overridden by the defaults and `maxIterations` is never
read, so the record passed here is the defaults.  When `nelderMead2d`
throws, the exception propagates.  Were it to return, the source reads `.x`
of its `Solution` — a member the `Solution` type does not have — and
`solution[0]` would throw; the subsequent validity check and fallback chain
(lines 119-154) are unreachable. -/
noncomputable def computeTextCentre (interior exterior : List CircleIntersection.Circle) :
    Except String Point2d :=
  match interior with
  | [] => .error "TypeError: cannot read properties of undefined (reading radius)"
  | c0 :: rest =>
    let points := (c0 :: rest).flatMap textSamples
    let initial0 : Point2d := points.headD ⟨0, 0⟩
    let start : Point2d × ℝ := (initial0, circleMargin initial0 (c0 :: rest) exterior)
    let best := points.tail.foldl
      (fun acc p =>
        let m := circleMargin p (c0 :: rest) exterior
        if m ≥ acc.2 then (p, m) else acc) start
    match NelderMead.nelderMead2d
        (fun p => -1 * circleMargin ⟨p.getD 0 0, p.getD 1 0⟩ (c0 :: rest) exterior)
        [best.1.x, best.1.y] NelderMead.defaultParameters with
    | .error e => .error e
    | .ok _solution => .error "TypeError: cannot read properties of undefined (reading 0)"

/-- One token of an SVG path string.  `circlePath` builds the string by
pushing tokens and joining them with single spaces, and `circleFromPath`
splits on single spaces; no token's serialisation contains a space, so
join-then-split is the identity on the token list and the embedding works
with the token list directly. -/
inductive PathToken where
  | cmd (s : String)
  | num (r : ℝ)

/-- JavaScript `parseFloat` applied to one token: a serialised finite number
parses back to itself; a command such as `"\nM"` parses to `NaN`, which
`circleFromPath` never reads on a `circlePath`-produced list, so a
placeholder stands for it. -/
noncomputable def tokenToFloat : PathToken → ℝ
  | .num r => r
  | .cmd _ => 0

/-- `circlePath({x, y, radius})` of `diagram.ts` lines 274-281: the pushed
tokens `"\nM" x y "\nm" -radius 0 "\na" radius radius 0 1 0 radius*2 0
"\na" radius radius 0 1 0 -radius*2 0`. -/
noncomputable def circlePath (c : CircleIntersection.Circle) : List PathToken :=
  [.cmd "\nM", .num c.x, .num c.y,
    .cmd "\nm", .num (-c.radius), .num 0,
    .cmd "\na", .num c.radius, .num c.radius, .num 0, .num 1, .num 0,
    .num (c.radius * 2), .num 0,
    .cmd "\na", .num c.radius, .num c.radius, .num 0, .num 1, .num 0,
    .num (-c.radius * 2), .num 0]

/-- `circleFromPath(path)` of `diagram.ts` lines 284-291:
`tokens = path.split(" ")`, then `{x: parseFloat(tokens[1]), y:
parseFloat(tokens[2]), radius: -parseFloat(tokens[4])}`. -/
noncomputable def circleFromPath (tokens : List PathToken) : CircleIntersection.Circle :=
  { x := tokenToFloat (tokens.getD 1 (.num 0))
    y := tokenToFloat (tokens.getD 2 (.num 0))
    radius := -tokenToFloat (tokens.getD 4 (.num 0)) }

end Diagram

/-! ## Helper lemmas and claim theorems -/

/-- C9: decoding the boundary-path token list produced by `circlePath`
recovers the original circle exactly: `circleFromPath (circlePath c) = c`
for every circle. -/
theorem circlePath_roundtrip (c : CircleIntersection.Circle) :
    Diagram.circleFromPath (Diagram.circlePath c) = c := by
  cases c with
  | mk x y radius =>
    simp [Diagram.circleFromPath, Diagram.circlePath, Diagram.tokenToFloat, List.getD]

/-- One unfolding step of `bisectLoop` at positive fuel. -/
theorem bisectLoop_succ (f : ℚ → ℚ) (fa tol a delta : ℚ) (n : ℕ) :
    Fmin.bisectLoop f fa tol a delta (n + 1) =
      (let delta' := delta / 2
       let mid := a + delta'
       let fmid := f mid
       let a' := if fmid * fa ≥ 0 then mid else a
       if |delta'| < tol ∨ fmid = 0 then mid
       else Fmin.bisectLoop f fa tol a' delta' n) := rfl

/-- C8: `bisect` errors when `f a` and `f b` have the same nonzero sign (and
so never returns a guessed root there); returns `a` immediately when
`f a = 0` and `b` when `f b = 0`; otherwise hands the bracket to the halving
loop, which runs at most `maxiterations` times, returns the midpoint as soon
as the half-bracket width `|delta / 2|` drops below `tolerance`, and returns
`a + delta` when the iteration budget is exhausted. -/
theorem bisect_spec (f : ℚ → ℚ) (a b : ℚ) (maxit : ℕ) (tol : ℚ) :
    ((0 < f a ∧ 0 < f b) ∨ (f a < 0 ∧ f b < 0) →
      Fmin.bisect f a b maxit tol = .error "initial bisect points must have opposite signs") ∧
    (¬ 0 < f a * f b → f a = 0 → Fmin.bisect f a b maxit tol = .ok a) ∧
    (¬ 0 < f a * f b → f a ≠ 0 → f b = 0 → Fmin.bisect f a b maxit tol = .ok b) ∧
    (¬ 0 < f a * f b → f a ≠ 0 → f b ≠ 0 →
      Fmin.bisect f a b maxit tol = .ok (Fmin.bisectLoop f (f a) tol a (b - a) maxit)) ∧
    (∀ (aa dd : ℚ) (n : ℕ), |dd / 2| < tol →
      Fmin.bisectLoop f (f a) tol aa dd (n + 1) = aa + dd / 2) ∧
    (∀ aa dd : ℚ, Fmin.bisectLoop f (f a) tol aa dd 0 = aa + dd) := by
  refine ⟨?_, ?_, ?_, ?_, ?_, ?_⟩
  · intro h
    have hpos : 0 < f a * f b := by
      rcases h with ⟨h1, h2⟩ | ⟨h1, h2⟩
      · exact mul_pos h1 h2
      · exact mul_pos_of_neg_of_neg h1 h2
    simp only [Fmin.bisect]
    rw [if_pos hpos]
  · intro hns hfa
    simp only [Fmin.bisect]
    rw [if_neg (by simpa using hns), if_pos hfa]
  · intro hns hfa hfb
    simp only [Fmin.bisect]
    rw [if_neg (by simpa using hns), if_neg hfa, if_pos hfb]
  · intro hns hfa hfb
    simp only [Fmin.bisect]
    rw [if_neg (by simpa using hns), if_neg hfa, if_neg hfb]
  · intro aa dd n htol
    simp only [Fmin.bisectLoop]
    rw [if_pos (Or.inl htol)]
  · intro aa dd
    rfl

/-- Witness for C8 at `f = id`, `a = -1`, `b = 1`, `maxiterations = 100`,
`tolerance = 1`: the bracket has opposite signs and neither endpoint is a
root, so the loop runs and finds the exact root `0` at its first midpoint. -/
theorem bisect_spec_witness :
    Fmin.bisect (fun x => x) (-1) 1 100 1 = .ok 0 := by
  have h := (bisect_spec (fun x => x) (-1) 1 100 1).2.2.2.1
    (by norm_num) (by norm_num) (by norm_num)
  rw [h]
  congr 1
  show Fmin.bisectLoop (fun x => x) (-1) 1 (-1) (1 - -1) (99 + 1) = 0
  rw [bisectLoop_succ]
  norm_num

/-- `zoom` never changes `next.x`: the only statement that would,
`weightedSum(next.x, 1.0, current.x, a, pk)`, discards the fresh array
`weightedSum` returns. -/
theorem zoomLoop_next_x (f : List ℚ → ℚ × List ℚ) (pk : List ℚ) (phi0 phiPrime0 c1 c2 : ℚ) :
    ∀ (fuel : ℕ) (a_lo a_high phi_lo : ℚ) (next : Fmin.CGPoint),
      (Fmin.zoomLoop f pk phi0 phiPrime0 c1 c2 a_lo a_high phi_lo next fuel).next.x = next.x := by
  intro fuel
  induction fuel with
  | zero => intro a_lo a_high phi_lo next; rfl
  | succ n ih =>
    intro a_lo a_high phi_lo next
    simp only [Fmin.zoomLoop]
    split
    · exact ih _ _ _ _
    · split
      · rfl
      · exact ih _ _ _ _

/-- The outer loop of `wolfeLineSearch` never changes `next.x` either. -/
theorem wolfeOuterLoop_next_x (f : List ℚ → ℚ × List ℚ) (pk : List ℚ)
    (phi0 phiPrime0 c1 c2 : ℚ) :
    ∀ (k iteration : ℕ), 10 - iteration ≤ k → ∀ (a a0 phi_old : ℚ) (next : Fmin.CGPoint),
      (Fmin.wolfeOuterLoop f pk phi0 phiPrime0 c1 c2 iteration a a0 phi_old next).next.x =
        next.x := by
  intro k
  induction k with
  | zero =>
    intro iteration hk a a0 phi_old next
    rw [Fmin.wolfeOuterLoop]
    rw [dif_pos (by omega)]
  | succ n ih =>
    intro iteration hk a a0 phi_old next
    rw [Fmin.wolfeOuterLoop]
    by_cases h10 : 10 ≤ iteration
    · rw [dif_pos h10]
    · rw [dif_neg h10]
      simp only
      split
      · exact zoomLoop_next_x f pk phi0 phiPrime0 c1 c2 16 _ _ _ _
      · split
        · rfl
        · split
          · exact zoomLoop_next_x f pk phi0 phiPrime0 c1 c2 16 _ _ _ _
          · exact ih (iteration + 1) (by omega) _ _ _ _

/-- `wolfeLineSearch` leaves `next.x` unchanged. -/
theorem wolfeLineSearch_next_x (f : List ℚ → ℚ × List ℚ) (pk : List ℚ)
    (current next : Fmin.CGPoint) (a c1 c2 : ℚ) :
    (Fmin.wolfeLineSearch f pk current next a c1 c2).next.x = next.x :=
  wolfeOuterLoop_next_x f pk current.fx (Fmin.dot current.fxprime pk) c1 c2 10 0
    (by omega) _ _ _ _

/-- C4: `weightedSum` never mutates the buffer passed as `ret`: its result
depends on `ret` only through `ret.length` (it reads no element of `ret` and
writes none), the result is the fresh length-`ret.length` array of weighted
combinations of `v1` and `v2`, and consequently the Wolfe line search —
which passes `next.x` as the `ret` of its `weightedSum` statements — leaves
`next.x` exactly as it was for every objective, direction and step. -/
theorem weightedSum_frame (ret : List ℚ) (w1 : ℚ) (v1 : List ℚ) (w2 : ℚ) (v2 : List ℚ)
    (h1 : v1.length = ret.length) (h2 : v2.length = ret.length) :
    (∀ ret2 : List ℚ, ret2.length = ret.length →
      Fmin.weightedSum ret2 w1 v1 w2 v2 = Fmin.weightedSum ret w1 v1 w2 v2) ∧
    (Fmin.weightedSum ret w1 v1 w2 v2).length = ret.length ∧
    (∀ i, i < ret.length →
      (Fmin.weightedSum ret w1 v1 w2 v2).getD i 0 = w1 * v1.getD i 0 + w2 * v2.getD i 0) ∧
    (∀ (f : List ℚ → ℚ × List ℚ) (pk : List ℚ) (cur nxt : Fmin.CGPoint) (a c1 c2 : ℚ),
      (Fmin.wolfeLineSearch f pk cur nxt a c1 c2).next.x = nxt.x) := by
  refine ⟨?_, ?_, ?_, ?_⟩
  · intro ret2 hlen
    simp only [Fmin.weightedSum, hlen]
  · simp [Fmin.weightedSum]
  · intro i hi
    have hlt : i < ((List.range ret.length).map
        fun index => w1 * v1.getD index 0 + w2 * v2.getD index 0).length := by
      simpa using hi
    rw [Fmin.weightedSum, List.getD_eq_getElem _ _ hlt]
    simp
  · intro f pk cur nxt a c1 c2
    exact wolfeLineSearch_next_x f pk cur nxt a c1 c2

/-- Witness for C4 at `ret = [5]`, `w1 = 2`, `v1 = [3]`, `w2 = 4`,
`v2 = [10]`. -/
theorem weightedSum_frame_witness :
    ([(3 : ℚ)].length = [(5 : ℚ)].length ∧ [(10 : ℚ)].length = [(5 : ℚ)].length) ∧
    ((∀ ret2 : List ℚ, ret2.length = [(5 : ℚ)].length →
        Fmin.weightedSum ret2 2 [3] 4 [10] = Fmin.weightedSum [(5 : ℚ)] 2 [3] 4 [10]) ∧
      (Fmin.weightedSum [(5 : ℚ)] 2 [3] 4 [10]).length = [(5 : ℚ)].length ∧
      (∀ i, i < [(5 : ℚ)].length →
        (Fmin.weightedSum [(5 : ℚ)] 2 [3] 4 [10]).getD i 0 =
          2 * [(3 : ℚ)].getD i 0 + 4 * [(10 : ℚ)].getD i 0) ∧
      (∀ (f : List ℚ → ℚ × List ℚ) (pk : List ℚ) (cur nxt : Fmin.CGPoint) (a c1 c2 : ℚ),
        (Fmin.wolfeLineSearch f pk cur nxt a c1 c2).next.x = nxt.x)) :=
  ⟨⟨rfl, rfl⟩, weightedSum_frame [5] 2 [3] 4 [10] rfl rfl⟩

/-- Every run of `zoom` either accepts a step or returns `0`: the only exits
are the acceptance `return a` and the fall-through `return 0`. -/
theorem zoomLoop_accept_or_zero (f : List ℚ → ℚ × List ℚ) (pk : List ℚ)
    (phi0 phiPrime0 c1 c2 : ℚ) :
    ∀ (fuel : ℕ) (a_lo a_high phi_lo : ℚ) (next : Fmin.CGPoint),
      (Fmin.zoomLoop f pk phi0 phiPrime0 c1 c2 a_lo a_high phi_lo next fuel).exit =
        .zoomAccept ∨
      (Fmin.zoomLoop f pk phi0 phiPrime0 c1 c2 a_lo a_high phi_lo next fuel).alpha = 0 := by
  intro fuel
  induction fuel with
  | zero => intro a_lo a_high phi_lo next; right; rfl
  | succ n ih =>
    intro a_lo a_high phi_lo next
    simp only [Fmin.zoomLoop]
    split
    · exact ih _ _ _ _
    · split
      · left; rfl
      · exact ih _ _ _ _

/-- An outer iteration other than the first whose `phi_old` is already the
value of the objective at the (never-moving) probe point `next.x` goes
straight into `zoom`: the guard `iteration && phi >= phi_old` holds because
`phi = f(next.x) = phi_old`.  Hence such an iteration accepts inside `zoom`
or returns `0`. -/
theorem wolfeOuterLoop_stale_fail (f : List ℚ → ℚ × List ℚ) (pk : List ℚ)
    (phi0 phiPrime0 c1 c2 : ℚ) (iteration : ℕ) (a a0 : ℚ) (next : Fmin.CGPoint)
    (h0 : iteration ≠ 0) (h10 : ¬ 10 ≤ iteration) :
    (Fmin.wolfeOuterLoop f pk phi0 phiPrime0 c1 c2 iteration a a0 ((f next.x).1) next).exit =
      .zoomAccept ∨
    (Fmin.wolfeOuterLoop f pk phi0 phiPrime0 c1 c2 iteration a a0 ((f next.x).1) next).alpha
      = 0 := by
  rw [Fmin.wolfeOuterLoop]
  rw [dif_neg h10]
  simp only
  rw [if_pos (Or.inr ⟨h0, le_refl _⟩)]
  exact zoomLoop_accept_or_zero f pk phi0 phiPrime0 c1 c2 16 _ _ _ _

/-- Starting the outer loop at iteration `0` (as `wolfeLineSearch` does),
the result either accepts (outer curvature return or `zoom` acceptance) or
is `0`: the outer fall-through `return a` is unreachable, because an
iteration `1` is always entered with `phi_old` equal to the unchanged
`phi`. -/
theorem wolfeOuterLoop_zero_fail (f : List ℚ → ℚ × List ℚ) (pk : List ℚ)
    (phi0 phiPrime0 c1 c2 : ℚ) (a a0 phi_old : ℚ) (next : Fmin.CGPoint) :
    (Fmin.wolfeOuterLoop f pk phi0 phiPrime0 c1 c2 0 a a0 phi_old next).exit =
      .outerAccept ∨
    (Fmin.wolfeOuterLoop f pk phi0 phiPrime0 c1 c2 0 a a0 phi_old next).exit =
      .zoomAccept ∨
    (Fmin.wolfeOuterLoop f pk phi0 phiPrime0 c1 c2 0 a a0 phi_old next).alpha = 0 := by
  rw [Fmin.wolfeOuterLoop]
  rw [dif_neg (by omega)]
  simp only
  split
  · rcases zoomLoop_accept_or_zero f pk phi0 phiPrime0 c1 c2 16 a0 a phi_old _ with h | h
    · exact Or.inr (Or.inl h)
    · exact Or.inr (Or.inr h)
  · split
    · exact Or.inl rfl
    · split
      · rcases zoomLoop_accept_or_zero f pk phi0 phiPrime0 c1 c2 16 a a0 _ _ with h | h
        · exact Or.inr (Or.inl h)
        · exact Or.inr (Or.inr h)
      · rcases wolfeOuterLoop_stale_fail f pk phi0 phiPrime0 c1 c2 1 (a * 2) a
          { next with fx := (f next.x).1, fxprime := (f next.x).2 } (by omega) (by omega)
          with h | h
        · exact Or.inr (Or.inl h)
        · exact Or.inr (Or.inr h)

/-- C7: whenever the Wolfe line search fails to accept a step — neither the
outer loop's curvature acceptance nor `zoom`'s acceptance fired — the
returned step size is `0`.  In particular a run that exhausts the outer
doubling loop without accepting would return `0`; the proof shows the only
non-accepting exit that can actually fire is `zoom`'s 16-try fall-through
`return 0`, the outer fall-through being unreachable. -/
theorem wolfeLineSearch_fail_returns_zero (f : List ℚ → ℚ × List ℚ) (pk : List ℚ)
    (current next : Fmin.CGPoint) (a c1 c2 : ℚ)
    (hOA : (Fmin.wolfeLineSearch f pk current next a c1 c2).exit ≠ .outerAccept)
    (hZA : (Fmin.wolfeLineSearch f pk current next a c1 c2).exit ≠ .zoomAccept) :
    (Fmin.wolfeLineSearch f pk current next a c1 c2).alpha = 0 := by
  rcases wolfeOuterLoop_zero_fail f pk current.fx (Fmin.dot current.fxprime pk) c1 c2
    (if a = 0 then 1 else a) 0 current.fx next with h | h | h
  · exact absurd h hOA
  · exact absurd h hZA
  · exact h

/-- When `zoom` is entered with `phi_lo` no larger than the objective value
at the fixed probe point `next.x` — which holds for every `zoom` call the
code can make, `phi_lo` being a previously computed `f(next.x)` or the
caller's `phi0` — its first branch fires forever (`phi >= phi_lo`), the
bracket shrinks without ever accepting, and after its 16 tries it returns
`0`. -/
theorem zoomLoop_stale (f : List ℚ → ℚ × List ℚ) (pk : List ℚ)
    (phi0 phiPrime0 c1 c2 : ℚ) :
    ∀ (fuel : ℕ) (a_lo a_high phi_lo : ℚ) (next : Fmin.CGPoint),
      phi_lo ≤ (f next.x).1 →
      Fmin.zoomLoop f pk phi0 phiPrime0 c1 c2 a_lo a_high phi_lo next fuel =
        ⟨0, if fuel = 0 then next else { next with fx := (f next.x).1, fxprime := (f next.x).2 },
          .zoomExhaust⟩ := by
  intro fuel
  induction fuel with
  | zero => intro a_lo a_high phi_lo next _; rfl
  | succ n ih =>
    intro a_lo a_high phi_lo next hlo
    simp only [Fmin.zoomLoop]
    rw [if_pos (Or.inr hlo)]
    rcases Nat.eq_zero_or_pos n with hn | hn
    · subst hn
      rw [ih _ _ _ _ (by exact hlo)]
      simp
    · rw [ih _ _ _ _ (by exact hlo)]
      rw [if_neg (by omega), if_neg (by omega)]

/-- Witness for C7: with the constant objective `0` (empty gradient), a
current record claiming value `-1`, and unit trial step, the sufficient
decrease test fails at once, `zoom` never accepts, and the search returns
`0`. -/
theorem wolfeLineSearch_fail_witness :
    (Fmin.wolfeLineSearch (fun _ => ((0 : ℚ), ([] : List ℚ))) [] ⟨[], -1, []⟩ ⟨[], 5, []⟩ 1
        Fmin.c1Default Fmin.c2Default).exit ≠ .outerAccept ∧
    (Fmin.wolfeLineSearch (fun _ => ((0 : ℚ), ([] : List ℚ))) [] ⟨[], -1, []⟩ ⟨[], 5, []⟩ 1
        Fmin.c1Default Fmin.c2Default).exit ≠ .zoomAccept ∧
    (Fmin.wolfeLineSearch (fun _ => ((0 : ℚ), ([] : List ℚ))) [] ⟨[], -1, []⟩ ⟨[], 5, []⟩ 1
        Fmin.c1Default Fmin.c2Default).alpha = 0 := by
  have hrun : Fmin.wolfeLineSearch (fun _ => ((0 : ℚ), ([] : List ℚ))) [] ⟨[], -1, []⟩
      ⟨[], 5, []⟩ 1 Fmin.c1Default Fmin.c2Default = ⟨0, ⟨[], 0, []⟩, .zoomExhaust⟩ := by
    show Fmin.wolfeOuterLoop (fun _ => ((0 : ℚ), ([] : List ℚ))) [] (-1) (Fmin.dot [] [])
        Fmin.c1Default Fmin.c2Default 0 (if (1 : ℚ) = 0 then 1 else 1) 0 (-1) ⟨[], 5, []⟩ = _
    rw [Fmin.wolfeOuterLoop, dif_neg (by omega)]
    simp only []
    rw [if_pos (Or.inl (by norm_num [Fmin.c1Default, Fmin.dot]))]
    rw [zoomLoop_stale (fun _ => ((0 : ℚ), ([] : List ℚ))) [] (-1) (Fmin.dot [] [])
      Fmin.c1Default Fmin.c2Default 16 0 (if (1 : ℚ) = 0 then 1 else 1) (-1) ⟨[], 0, []⟩
      (by norm_num)]
    norm_num
  refine ⟨by rw [hrun]; simp, by rw [hrun]; simp,
    wolfeLineSearch_fail_returns_zero _ _ _ _ _ _ _ (by rw [hrun]; simp) (by rw [hrun]; simp)⟩

/-- Folding the dot-product accumulator from `acc` adds `acc` to the fold
from `0`. -/
theorem dot_foldl_shift (l : List (ℚ × ℚ)) :
    ∀ acc : ℚ, l.foldl (fun p c => p + c.1 * c.2) acc =
      acc + l.foldl (fun p c => p + c.1 * c.2) 0 := by
  induction l with
  | nil => intro acc; simp
  | cons hd tl ih =>
    intro acc
    simp only [List.foldl_cons]
    rw [ih (acc + hd.1 * hd.2), ih (0 + hd.1 * hd.2)]
    ring

/-- `dot` on cons cells. -/
theorem dot_cons (x y : ℚ) (xs ys : List ℚ) :
    Fmin.dot (x :: xs) (y :: ys) = x * y + Fmin.dot xs ys := by
  simp only [Fmin.dot, List.zip_cons_cons, List.foldl_cons]
  rw [dot_foldl_shift]
  ring

/-- `dot v v` is a sum of squares, hence non-negative. -/
theorem dot_self_nonneg (v : List ℚ) : 0 ≤ Fmin.dot v v := by
  induction v with
  | nil => simp [Fmin.dot]
  | cons x xs ih =>
    rw [dot_cons]
    nlinarith [mul_self_nonneg x]

/-- `dot v (scale v (-1)) = -(dot v v)`: the direction `pk` built by
`scale(pk, fxprime, -1)` makes `phiPrime0` the negated gradient norm
squared. -/
theorem dot_scale_neg (v : List ℚ) :
    Fmin.dot v (Fmin.scale v (-1)) = -Fmin.dot v v := by
  induction v with
  | nil => simp [Fmin.dot, Fmin.scale]
  | cons x xs ih =>
    simp only [Fmin.scale, List.map_cons] at ih ⊢
    rw [dot_cons, dot_cons, ih]
    ring
/-- Inside `conjugateGradient`, every `wolfeLineSearch` call happens with
`currentodd = {x0, f(x0), grad f(x0)}`, `next.x = x0` (never written), direction
`pk = -grad f(x0)` and a previous step of `0` or `1`.  Because the probe
point never moves, `phi = phi0` at every evaluation: if the gradient is
zero the very first curvature test accepts the (defaulted) unit step, and
otherwise the Armijo test fails immediately, `zoom` brackets forever and
returns `0`. -/
theorem wolfe_cg (f : List ℚ → ℚ × List ℚ) (x0 : List ℚ) (nxt : Fmin.CGPoint) (a : ℚ)
    (hnx : nxt.x = x0) (ha : a = 0 ∨ a = 1) :
    Fmin.wolfeLineSearch f (Fmin.scale (f x0).2 (-1)) ⟨x0, (f x0).1, (f x0).2⟩ nxt a
      Fmin.c1Default Fmin.c2Default =
      ⟨if Fmin.dot (f x0).2 (f x0).2 = 0 then 1 else 0,
        ⟨nxt.x, (f x0).1, (f x0).2⟩,
        if Fmin.dot (f x0).2 (f x0).2 = 0 then .outerAccept else .zoomExhaust⟩ := by
  have haeff : (if a = 0 then (1 : ℚ) else a) = 1 := by
    rcases ha with h | h <;> simp [h]
  have hD : Fmin.dot (f x0).2 (Fmin.scale (f x0).2 (-1)) = -Fmin.dot (f x0).2 (f x0).2 :=
    dot_scale_neg (f x0).2
  show Fmin.wolfeOuterLoop f (Fmin.scale (f x0).2 (-1)) (f x0).1
      (Fmin.dot (f x0).2 (Fmin.scale (f x0).2 (-1))) Fmin.c1Default Fmin.c2Default 0
      (if a = 0 then 1 else a) 0 (f x0).1 nxt = _
  rw [Fmin.wolfeOuterLoop, dif_neg (by omega), haeff, hD]
  simp only [hnx]
  rcases eq_or_ne (Fmin.dot (f x0).2 (f x0).2) 0 with hS | hS
  · rw [hS]
    rw [if_neg (by norm_num)]
    rw [if_pos (by rw [hD, hS]; norm_num)]
    norm_num
  · have hSpos : 0 < Fmin.dot (f x0).2 (f x0).2 :=
      lt_of_le_of_ne (dot_self_nonneg _) (Ne.symm hS)
    rw [if_pos (Or.inl (by rw [Fmin.c1Default]; nlinarith))]
    rw [zoomLoop_stale f (Fmin.scale (f x0).2 (-1)) (f x0).1
      (-Fmin.dot (f x0).2 (f x0).2) Fmin.c1Default Fmin.c2Default 16 0 1 ((f x0).1)
      ⟨x0, (f x0).1, (f x0).2⟩ (le_refl _)]
    rw [if_neg hS, if_neg hS]
    norm_num
/-- One conjugate-gradient iteration preserves the degenerate state the
non-mutating `weightedSum` forces: `current` keeps the initial point's data,
`next.x` stays the initial coordinates, the direction stays the negated
initial gradient, the step stays `0` or `1`, and the body bumps the
iteration count exactly when the loop has not broken. -/
theorem cgIterate_invariant (f : List ℚ → ℚ × List ℚ) (x0 : List ℚ) (st : Fmin.CGState)
    (hcur : st.current = ⟨x0, (f x0).1, (f x0).2⟩)
    (hnx : st.next.x = x0)
    (hpk : st.pk = Fmin.scale (f x0).2 (-1))
    (ha : st.a = 0 ∨ st.a = 1) :
    (Fmin.cgIterate f st).current = ⟨x0, (f x0).1, (f x0).2⟩ ∧
    (Fmin.cgIterate f st).next.x = x0 ∧
    (Fmin.cgIterate f st).pk = Fmin.scale (f x0).2 (-1) ∧
    ((Fmin.cgIterate f st).a = 0 ∨ (Fmin.cgIterate f st).a = 1) ∧
    (Fmin.cgIterate f st).count = (if st.stopped then st.count else st.count + 1) ∧
    (Fmin.cgIterate f st).stopped =
      (st.stopped || decide (Fmin.norm2sq (f x0).2 ≤ Fmin.gradTolSq)) := by
  by_cases hstop : st.stopped
  · simp [Fmin.cgIterate, hstop, hcur, hnx, hpk, ha]
  · have hw := wolfe_cg f x0 st.next st.a hnx ha
    simp only [Fmin.cgIterate]
    rw [if_neg hstop, hcur, hpk, hw]
    simp only
    rcases eq_or_ne (Fmin.dot (f x0).2 (f x0).2) 0 with hS | hS
    · rw [if_pos hS, if_neg one_ne_zero]
      refine ⟨by rw [hnx], rfl, rfl, Or.inr rfl, by rw [if_neg hstop], by simp [hstop]⟩
    · rw [if_neg hS, if_pos rfl]
      refine ⟨rfl, hnx, rfl, Or.inl rfl, by rw [if_neg hstop], by simp [hstop]⟩
/-- The degenerate conjugate-gradient state is preserved by any number of
iterations, and `current` still holds the initial point's data at the
end. -/
theorem cg_fold_invariant (f : List ℚ → ℚ × List ℚ) (x0 : List ℚ) :
    ∀ (l : List ℕ) (st : Fmin.CGState),
      st.current = ⟨x0, (f x0).1, (f x0).2⟩ → st.next.x = x0 →
      st.pk = Fmin.scale (f x0).2 (-1) → (st.a = 0 ∨ st.a = 1) →
      (l.foldl (fun s _ => Fmin.cgIterate f s) st).current = ⟨x0, (f x0).1, (f x0).2⟩ := by
  intro l
  induction l with
  | nil => intro st h1 _ _ _; exact h1
  | cons hd tl ih =>
    intro st h1 h2 h3 h4
    have h := cgIterate_invariant f x0 st h1 h2 h3 h4
    exact ih (Fmin.cgIterate f st) h.1 h.2.1 h.2.2.1 h.2.2.2.1

/-- While the initial gradient's squared norm stays above the tolerance the
loop never breaks, so every pass increments the iteration count. -/
theorem cg_fold_count (f : List ℚ → ℚ × List ℚ) (x0 : List ℚ)
    (hbig : ¬ Fmin.norm2sq (f x0).2 ≤ Fmin.gradTolSq) :
    ∀ (l : List ℕ) (st : Fmin.CGState),
      st.current = ⟨x0, (f x0).1, (f x0).2⟩ → st.next.x = x0 →
      st.pk = Fmin.scale (f x0).2 (-1) → (st.a = 0 ∨ st.a = 1) → st.stopped = false →
      (l.foldl (fun s _ => Fmin.cgIterate f s) st).count = st.count + l.length := by
  intro l
  induction l with
  | nil => intro st _ _ _ _ _; simp
  | cons hd tl ih =>
    intro st h1 h2 h3 h4 h5
    have h := cgIterate_invariant f x0 st h1 h2 h3 h4
    have hc : (Fmin.cgIterate f st).count = st.count + 1 := by
      rw [h.2.2.2.2.1, h5]
      simp
    have hs : (Fmin.cgIterate f st).stopped = false := by
      rw [h.2.2.2.2.2, h5]
      simp [hbig]
    simp only [List.foldl_cons, List.length_cons]
    rw [ih (Fmin.cgIterate f st) h.1 h.2.1 h.2.2.1 h.2.2.2.1 hs, hc]
    omega

/-- Mapping over an all-holes array runs the body zero times. -/
theorem jsHoleyFold_replicate_none {σ : Type} (body : σ → σ) :
    ∀ (n : ℕ) (s : σ), BigRewrites.jsHoleyFold body (List.replicate n none) s = s := by
  intro n
  induction n with
  | zero => intro s; rfl
  | succ m ih => intro s; simpa [BigRewrites.jsHoleyFold, List.replicate] using ih s

/-- The `bigRewrites.ts` conjugate gradient returns the initial point, its
objective value and gradient, after zero loop-body executions. -/
theorem conjugateGradientBig_result (f : List ℚ → ℚ × List ℚ) (initial : List ℚ)
    (mi : Option ℕ) :
    BigRewrites.conjugateGradient f initial mi =
      ⟨initial, (f initial).1, (f initial).2, 0⟩ := by
  simp only [BigRewrites.conjugateGradient]
  rw [jsHoleyFold_replicate_none]
  rfl

/-- The part_001 conjugate gradient also returns the initial point, its
objective value and gradient — the swap installs a record with identical
contents — whatever the iteration budget. -/
theorem conjugateGradient_result (f : List ℚ → ℚ × List ℚ) (initial : List ℚ)
    (mi : Option ℕ) :
    (Fmin.conjugateGradient f initial mi).x = initial ∧
    (Fmin.conjugateGradient f initial mi).fx = (f initial).1 ∧
    (Fmin.conjugateGradient f initial mi).fxprime = (f initial).2 := by
  have h := cg_fold_invariant f initial
    (List.range (Fmin.jsOrNat mi (initial.length * 20))) (Fmin.cgInit f initial)
    rfl rfl rfl (Or.inr rfl)
  simp only [Fmin.conjugateGradient]
  rw [h]
  exact ⟨rfl, rfl, rfl⟩
/-- C10 (amended): the two `conjugateGradient` implementations agree on the
final point, objective value and gradient for every objective — both return
the initial point's data, since no line-search step ever moves the probe
point — but not on the number of descent iterations: the `bigRewrites`
version's `Array.prototype.map` over the holes of `new Array(maxIter)` never
invokes its callback, so it performs zero iterations. -/
theorem conjugateGradient_versions_agree_on_result (f : List ℚ → ℚ × List ℚ)
    (initial : List ℚ) (mi : Option ℕ) :
    (BigRewrites.conjugateGradient f initial mi).x = (Fmin.conjugateGradient f initial mi).x ∧
    (BigRewrites.conjugateGradient f initial mi).fx =
      (Fmin.conjugateGradient f initial mi).fx ∧
    (BigRewrites.conjugateGradient f initial mi).fxprime =
      (Fmin.conjugateGradient f initial mi).fxprime ∧
    (BigRewrites.conjugateGradient f initial mi).iterations = 0 := by
  have hb := conjugateGradientBig_result f initial mi
  have hp := conjugateGradient_result f initial mi
  rw [hb, hp.1, hp.2.1, hp.2.2]
  exact ⟨rfl, rfl, rfl, rfl⟩

/-- C10 counterexample: minimising `x ↦ x²` (gradient `2x`) from `[1]` with
the default iteration budget, the for-loop version executes its full
`1 × 20` loop passes (each line search fails, the gradient never shrinks)
while the `map`-over-holes version executes none, so the two
implementations do not perform the same number of descent iterations. -/
theorem conjugateGradient_iteration_counts_differ :
    (BigRewrites.conjugateGradient
        (fun q => (q.getD 0 0 * q.getD 0 0, [2 * q.getD 0 0])) [1] none).iterations ≠
      (Fmin.conjugateGradient
        (fun q => (q.getD 0 0 * q.getD 0 0, [2 * q.getD 0 0])) [1] none).iterations := by
  have hgrad : ((fun q => (q.getD 0 0 * q.getD 0 0, [2 * q.getD 0 0])) [(1 : ℚ)]).2
      = [2] := by norm_num
  have hbig : ¬ Fmin.norm2sq ((fun q => (q.getD 0 0 * q.getD 0 0, [2 * q.getD 0 0]))
      [(1 : ℚ)]).2 ≤ Fmin.gradTolSq := by
    rw [hgrad]
    simp only [Fmin.norm2sq, Fmin.gradTolSq]
    rw [dot_cons]
    simp [Fmin.dot]
    norm_num
  have hcount := cg_fold_count (fun q => (q.getD 0 0 * q.getD 0 0, [2 * q.getD 0 0])) [1]
    hbig (List.range (Fmin.jsOrNat none ([(1 : ℚ)].length * 20)))
    (Fmin.cgInit (fun q => (q.getD 0 0 * q.getD 0 0, [2 * q.getD 0 0])) [1])
    rfl rfl rfl (Or.inr rfl) rfl
  have hpart : (Fmin.conjugateGradient
      (fun q => (q.getD 0 0 * q.getD 0 0, [2 * q.getD 0 0])) [1] none).iterations = 20 := by
    simp only [Fmin.conjugateGradient]
    rw [hcount]
    rfl
  rw [conjugateGradientBig_result, hpart]
  simp
/-- For any non-empty initial guess, `nelderMead2d` throws while building the
simplex: `new Array(N + 1)` holds no objects beyond the seeded slot `0`, so
the first `simplex[i + 1].coordinates = point` assignment dereferences
`undefined`. -/
theorem nelderMead2d_construction_throws (f : List ℝ → ℝ) (guess : List ℝ)
    (p : NelderMead.NMParams) (h : guess ≠ []) :
    NelderMead.nelderMead2d f guess p =
      .error "TypeError: cannot set properties of undefined (setting coordinates)" := by
  obtain ⟨x, xs, rfl⟩ := List.exists_cons_of_ne_nil h
  simp only [NelderMead.nelderMead2d, List.length_cons, List.replicate_succ]
  simp only [NelderMead.buildSimplexLoop, List.getD_cons_succ, List.getD_cons_zero]

/-- C6: `nelderMead2d` cannot stop by its tolerance test at all — on any
input of dimension at least one it throws a `TypeError` while constructing
the simplex, before the first iteration — and even the tolerances it would
test are not the caller's: the spread `{ ...parameters,
...defaultParameters }` makes every field of the merged record the default,
so `minErrorDelta` and `minTolerance` are `1e-6` and `1e-5` whatever the
caller configures. -/
theorem nelderMead2d_crash_and_tolerance_override :
    NelderMead.nelderMead2d (fun _ => 0) [0] NelderMead.defaultParameters =
      .error "TypeError: cannot set properties of undefined (setting coordinates)" ∧
    ∀ p : NelderMead.NMParams,
      (NelderMead.mergeParams p NelderMead.defaultParameters).minErrorDelta =
        NelderMead.defaultParameters.minErrorDelta ∧
      (NelderMead.mergeParams p NelderMead.defaultParameters).minTolerance =
        NelderMead.defaultParameters.minTolerance :=
  ⟨nelderMead2d_construction_throws _ _ _ (by simp), fun _p => ⟨rfl, rfl⟩⟩

/-- `computeTextCentre` on any non-empty interior reaches the `nelderMead2d`
call with the two-dimensional guess `[initial.x, initial.y]` and that call
throws, so no anchor point is ever returned, let alone validated. -/
theorem computeTextCentre_throws_nonempty (c : CircleIntersection.Circle)
    (rest ext : List CircleIntersection.Circle) :
    Diagram.computeTextCentre (c :: rest) ext =
      .error "TypeError: cannot set properties of undefined (setting coordinates)" := by
  simp only [Diagram.computeTextCentre]
  rw [nelderMead2d_construction_throws]
  simp

/-- C5: at the failing input `interior = [unit circle at the origin]`,
`exterior = []`, `computeTextCentre` throws instead of returning a validated
anchor point. -/
theorem computeTextCentre_throws :
    Diagram.computeTextCentre [⟨0, 0, 1⟩] [] =
      .error "TypeError: cannot set properties of undefined (setting coordinates)" :=
  computeTextCentre_throws_nonempty ⟨0, 0, 1⟩ [] []
/-- The distance from a point to itself is `0`. -/
theorem distance_self (p : CircleIntersection.Point2d) :
    CircleIntersection.distance p p = 0 := by
  simp [CircleIntersection.distance]

/-- A single circle produces no pairwise intersection points. -/
theorem getIntersectionPoints_single (c : CircleIntersection.Circle) :
    CircleIntersection.getIntersectionPoints [c] = [] := by
  simp [CircleIntersection.getIntersectionPoints]

/-- C1: `intersectionArea` of the single unit circle at the origin is `0`,
not `π·1²` — the `<2 inner points` branch tests
`every(distance(c, smt) > |smt.radius - c.radius|)`, which compares the
smallest circle against itself (`0 > 0`) and always fails, so the area of a
lone circle is reported as `0` even though `π ≠ 0`. -/
theorem intersectionArea_single_circle_zero :
    CircleIntersection.intersectionArea [⟨0, 0, 1⟩] = 0 ∧
    Real.pi * 1 * 1 ≠ 0 := by
  constructor
  · simp only [CircleIntersection.intersectionArea, getIntersectionPoints_single,
      List.filter_nil, List.length_nil]
    rw [if_neg (by norm_num)]
    simp only [List.foldl_nil, List.all_cons, List.all_nil]
    rw [decide_eq_false (by
      rw [distance_self]
      norm_num)]
    simp
  · simp [Real.pi_ne_zero]
/-- The `reduce` that picks the smallest-radius circle returns a member of
the list. -/
theorem smtReduce_mem (rest : List CircleIntersection.Circle) :
    ∀ c : CircleIntersection.Circle,
      rest.foldl (fun prev curr => if prev.radius < curr.radius then prev else curr) c = c ∨
      rest.foldl (fun prev curr => if prev.radius < curr.radius then prev else curr) c ∈
        rest := by
  induction rest with
  | nil => intro c; exact Or.inl rfl
  | cons hd tl ih =>
    intro c
    simp only [List.foldl_cons]
    rcases ih (if c.radius < hd.radius then c else hd) with h | h
    · rw [h]
      by_cases hr : c.radius < hd.radius
      · rw [if_pos hr]; exact Or.inl rfl
      · rw [if_neg hr]; exact Or.inr (List.mem_cons_self hd tl)
    · exact Or.inr (List.mem_cons_of_mem hd h)

/-- The `smallestIsContained` test of `intersectionArea` is false for every
non-empty circle list: the smallest circle `smt` belongs to the list, and
`distance(smt, smt) > |smt.radius - smt.radius|` is `0 > 0`. -/
theorem smallestIsContained_false (c : CircleIntersection.Circle)
    (rest : List CircleIntersection.Circle) :
    ((c :: rest).all fun c2 =>
      decide (CircleIntersection.distance c2.center
        (rest.foldl (fun prev curr => if prev.radius < curr.radius then prev else curr)
          c).center >
        |(rest.foldl (fun prev curr => if prev.radius < curr.radius then prev else curr)
          c).radius - c2.radius|)) = false := by
  set smt := rest.foldl (fun prev curr => if prev.radius < curr.radius then prev else curr) c
    with hsmt
  have hmem : smt ∈ c :: rest := by
    rcases smtReduce_mem rest c with h | h
    · rw [hsmt, h]; exact List.mem_cons_self c rest
    · rw [hsmt]; exact List.mem_cons_of_mem c h
  refine List.all_eq_false.mpr ⟨smt, hmem, ?_⟩
  rw [distance_self]
  simp

/-- Whenever `intersectionArea` reaches its `<2 inner points` branch it
returns `0`, whatever the configuration: the inverted containment test
(`smallestIsContained_false`) never lets the nested-circle case fire. -/
theorem intersectionArea_few_inner_zero (c : CircleIntersection.Circle)
    (rest : List CircleIntersection.Circle)
    (h : ¬ 1 < (((CircleIntersection.getIntersectionPoints (c :: rest)).filter fun p =>
      CircleIntersection.containedInCircles ⟨p.x, p.y⟩ (c :: rest)).length)) :
    CircleIntersection.intersectionArea (c :: rest) = 0 := by
  simp only [CircleIntersection.intersectionArea]
  rw [if_neg h]
  rw [smallestIsContained_false c rest]
  simp
namespace CircleIntersection

/-- The middle branch of `circleOverlap` is `segSum`. -/
theorem circleOverlap_middle (r1 r2 d : ℝ) (h1 : |r1 - r2| < d) (h2 : d < r1 + r2) :
    circleOverlap r1 r2 d = segSum r1 r2 d := by
  simp only [circleOverlap, segWidth, segSum]
  rw [if_neg (by exact not_le.mpr h2), if_neg (by exact not_le.mpr h1)]

/-- Inside the open overlap interval both radii and the distance are
positive. -/
theorem interval_pos (r1 r2 d : ℝ) (hr1 : 0 ≤ r1) (hr2 : 0 ≤ r2)
    (h1 : |r1 - r2| < d) (h2 : d < r1 + r2) : 0 < d ∧ 0 < r1 ∧ 0 < r2 := by
  have hd : 0 < d := lt_of_le_of_lt (abs_nonneg _) h1
  have hsq1 : (r1 - r2) ^ 2 < d ^ 2 := by
    have := sq_abs (r1 - r2)
    nlinarith [abs_nonneg (r1 - r2)]
  have hsq2 : d ^ 2 < (r1 + r2) ^ 2 := by nlinarith
  have hprod : 0 < r1 * r2 := by nlinarith
  constructor
  · exact hd
  constructor
  · rcases lt_or_eq_of_le hr1 with h | h
    · exact h
    · exfalso; rw [← h] at hprod; nlinarith
  · rcases lt_or_eq_of_le hr2 with h | h
    · exact h
    · exfalso; rw [← h] at hprod; nlinarith

/-- Factorised form of the segment width. -/
theorem segWidth_eq_factored (r1 r2 d : ℝ) (hd : d ≠ 0) :
    segWidth r1 r2 d = (r1 + r2 - d) * (d + r2 - r1) / (2 * d) := by
  simp only [segWidth]
  field_simp
  ring

/-- The segment width is positive strictly inside the overlap interval. -/
theorem segWidth_pos (r1 r2 d : ℝ) (h1 : |r1 - r2| < d) (h2 : d < r1 + r2) :
    0 < segWidth r1 r2 d := by
  have hd : 0 < d := lt_of_le_of_lt (abs_nonneg _) h1
  rw [segWidth_eq_factored r1 r2 d (ne_of_gt hd)]
  have hf1 : 0 < r1 + r2 - d := by linarith
  have hf2 : 0 < d + r2 - r1 := by
    have := le_abs_self (r1 - r2)
    linarith
  positivity

/-- The segment width is below `2·r1` strictly inside the overlap
interval. -/
theorem segWidth_lt (r1 r2 d : ℝ) (h1 : |r1 - r2| < d) (h2 : d < r1 + r2) :
    segWidth r1 r2 d < 2 * r1 := by
  have hd : 0 < d := lt_of_le_of_lt (abs_nonneg _) h1
  have key : 2 * r1 - segWidth r1 r2 d = (d + r1 - r2) * (d + r1 + r2) / (2 * d) := by
    simp only [segWidth]
    field_simp
    ring
  have hf1 : 0 < d + r1 - r2 := by
    have := neg_abs_le (r1 - r2)
    linarith
  have hf2 : 0 < d + r1 + r2 := by
    have := le_abs_self (r1 - r2)
    have := neg_abs_le (r1 - r2)
    linarith
  nlinarith [div_pos (mul_pos hf1 hf2) (by linarith : (0 : ℝ) < 2 * d)]

/-- Both circular segments share the half-chord: the products
`w·(2r - w)` agree for the two widths. -/
theorem segWidth_chord_eq (r1 r2 d : ℝ) (hd : d ≠ 0) :
    segWidth r1 r2 d * (2 * r1 - segWidth r1 r2 d) =
      segWidth r2 r1 d * (2 * r2 - segWidth r2 r1 d) := by
  simp only [segWidth]
  field_simp
  ring

/-- `circleArea r 0 = 0`: an empty segment. -/
theorem circleArea_zero (r : ℝ) : circleArea r 0 = 0 := by
  simp [circleArea, Real.arccos_one]

/-- `circleArea r (2r) = π·r²`: the full circle as a segment. -/
theorem circleArea_full (r : ℝ) (hr : r ≠ 0) : circleArea r (2 * r) = Real.pi * (r * r) := by
  simp only [circleArea]
  rw [show (2 * r) * (2 * r - 2 * r) = 0 by ring, Real.sqrt_zero,
    show 1 - 2 * r / r = -1 by field_simp; ring, Real.arccos_neg_one]
  ring

end CircleIntersection
namespace CircleIntersection

/-- Derivative of the circular-segment area in the width: twice the
half-chord, `2·√(w(2r - w))`. -/
theorem hasDerivAt_circleArea (r w : ℝ) (hr : 0 < r) (h0 : 0 < w) (h2 : w < 2 * r) :
    HasDerivAt (fun w => circleArea r w) (2 * Real.sqrt (w * (2 * r - w))) w := by
  have hrne : r ≠ 0 := ne_of_gt hr
  have harg1 : (1 : ℝ) - w / r ≠ -1 := by
    intro h
    have : w = 2 * r := by field_simp at h; linarith
    exact absurd this (ne_of_lt h2)
  have harg2 : (1 : ℝ) - w / r ≠ 1 := by
    intro h
    have : w = 0 := by field_simp at h; linarith
    exact absurd this (ne_of_gt h0)
  have hprod : 0 < w * (2 * r - w) := mul_pos h0 (by linarith)
  have hsqrt : 0 < Real.sqrt (w * (2 * r - w)) := Real.sqrt_pos.mpr hprod
  have hinner : HasDerivAt (fun w : ℝ => 1 - w / r) (-(1 / r)) w := by
    simpa using ((hasDerivAt_id w).div_const r).const_sub 1
  have harccos : HasDerivAt (fun w : ℝ => Real.arccos (1 - w / r))
      (-(1 / Real.sqrt (1 - (1 - w / r) ^ 2)) * -(1 / r)) w :=
    (Real.hasDerivAt_arccos harg1 harg2).comp w hinner
  have hq : HasDerivAt (fun w : ℝ => w * (2 * r - w)) (2 * r - 2 * w) w := by
    have h := (hasDerivAt_id w).mul ((hasDerivAt_id w).const_sub (2 * r))
    have e : 1 * (2 * r - id w) + id w * -1 = 2 * r - 2 * w := by
      simp only [id_eq]; ring
    rw [e] at h
    exact h
  have hsq : HasDerivAt (fun w : ℝ => Real.sqrt (w * (2 * r - w)))
      ((2 * r - 2 * w) / (2 * Real.sqrt (w * (2 * r - w)))) w :=
    hq.sqrt (ne_of_gt hprod)
  have hterm2 : HasDerivAt (fun w : ℝ => (r - w) * Real.sqrt (w * (2 * r - w)))
      ((-1) * Real.sqrt (w * (2 * r - w)) +
        (r - w) * ((2 * r - 2 * w) / (2 * Real.sqrt (w * (2 * r - w))))) w := by
    have hl : HasDerivAt (fun w : ℝ => r - w) (-1) w := by
      simpa using (hasDerivAt_id w).const_sub r
    exact hl.mul hsq
  have htotal := (harccos.const_mul (r * r)).sub hterm2
  have hval : r * r * (-(1 / Real.sqrt (1 - (1 - w / r) ^ 2)) * -(1 / r)) -
      ((-1) * Real.sqrt (w * (2 * r - w)) +
        (r - w) * ((2 * r - 2 * w) / (2 * Real.sqrt (w * (2 * r - w))))) =
      2 * Real.sqrt (w * (2 * r - w)) := by
    have hargsq : 1 - (1 - w / r) ^ 2 = w * (2 * r - w) / r ^ 2 := by
      field_simp
      ring
    rw [hargsq, Real.sqrt_div (le_of_lt hprod), Real.sqrt_sq hr.le]
    have hs : Real.sqrt (w * (2 * r - w)) ≠ 0 := ne_of_gt hsqrt
    have hS2 : Real.sqrt (w * (2 * r - w)) * Real.sqrt (w * (2 * r - w)) = w * (2 * r - w) :=
      Real.mul_self_sqrt hprod.le
    generalize hgen : Real.sqrt (w * (2 * r - w)) = S at hs hS2 ⊢
    field_simp
    linear_combination (-2 * S * r) * hS2
  rw [hval] at htotal
  exact htotal

end CircleIntersection
namespace CircleIntersection

/-- Derivative of the segment width in the centre distance. -/
theorem hasDerivAt_segWidth (r1 r2 d : ℝ) (hd : d ≠ 0) :
    HasDerivAt (fun d => segWidth r1 r2 d)
      (-((d * d + r2 * r2 - r1 * r1) / (2 * (d * d)))) d := by
  have hu : HasDerivAt (fun d : ℝ => d * d - r2 * r2 + r1 * r1) (2 * d) d := by
    have h := (hasDerivAt_id d).mul (hasDerivAt_id d)
    have e : 1 * id d + id d * 1 = 2 * d := by simp only [id_eq]; ring
    rw [e] at h
    exact (h.sub_const (r2 * r2)).add_const (r1 * r1)
  have hv : HasDerivAt (fun d : ℝ => 2 * d) 2 d := by
    simpa using (hasDerivAt_id d).const_mul 2
  have hne : 2 * d ≠ 0 := by
    intro h
    exact hd (by linarith [h])
  have hdiv := hu.div hv hne
  have h := hdiv.const_sub r1
  have e : -((2 * d * (2 * d) - (d * d - r2 * r2 + r1 * r1) * 2) / (2 * d) ^ 2) =
      -((d * d + r2 * r2 - r1 * r1) / (2 * (d * d))) := by
    have hdd : d * d ≠ 0 := mul_ne_zero hd hd
    field_simp
    ring
  rw [e] at h
  exact h

/-- Derivative of the two-segment sum in the centre distance: minus the full
chord length `2·√(w1(2r1 - w1))`, which is non-positive — the overlap area
cannot increase as the circles move apart. -/
theorem hasDerivAt_segSum (r1 r2 d : ℝ) (hr1 : 0 ≤ r1) (hr2 : 0 ≤ r2)
    (h1 : |r1 - r2| < d) (h2 : d < r1 + r2) :
    HasDerivAt (fun d => segSum r1 r2 d)
      (-2 * Real.sqrt (segWidth r1 r2 d * (2 * r1 - segWidth r1 r2 d))) d := by
  obtain ⟨hd, hp1, hp2⟩ := interval_pos r1 r2 d hr1 hr2 h1 h2
  have h1' : |r2 - r1| < d := by rwa [abs_sub_comm]
  have h2' : d < r2 + r1 := by linarith
  have hw1pos := segWidth_pos r1 r2 d h1 h2
  have hw1lt := segWidth_lt r1 r2 d h1 h2
  have hw2pos := segWidth_pos r2 r1 d h1' h2'
  have hw2lt := segWidth_lt r2 r1 d h1' h2'
  have hdw1 := hasDerivAt_segWidth r1 r2 d (ne_of_gt hd)
  have hdw2 := hasDerivAt_segWidth r2 r1 d (ne_of_gt hd)
  have hc1 := (hasDerivAt_circleArea r1 (segWidth r1 r2 d) hp1 hw1pos hw1lt).comp d hdw1
  have hc2 := (hasDerivAt_circleArea r2 (segWidth r2 r1 d) hp2 hw2pos hw2lt).comp d hdw2
  have hsum := hc1.add hc2
  have hflip : Real.sqrt (segWidth r2 r1 d * (2 * r2 - segWidth r2 r1 d)) =
      Real.sqrt (segWidth r1 r2 d * (2 * r1 - segWidth r1 r2 d)) :=
    congrArg Real.sqrt (segWidth_chord_eq r2 r1 d (ne_of_gt hd))
  rw [hflip] at hsum
  have hval : 2 * Real.sqrt (segWidth r1 r2 d * (2 * r1 - segWidth r1 r2 d)) *
        (-((d * d + r2 * r2 - r1 * r1) / (2 * (d * d)))) +
      2 * Real.sqrt (segWidth r1 r2 d * (2 * r1 - segWidth r1 r2 d)) *
        (-((d * d + r1 * r1 - r2 * r2) / (2 * (d * d)))) =
      -2 * Real.sqrt (segWidth r1 r2 d * (2 * r1 - segWidth r1 r2 d)) := by
    have hdd : d * d ≠ 0 := by positivity
    field_simp
    ring
  rw [hval] at hsum
  exact hsum

end CircleIntersection
namespace CircleIntersection

/-- For a fixed radius the segment area is continuous in the width. -/
theorem circleArea_continuous (r : ℝ) : Continuous (fun w => circleArea r w) := by
  unfold circleArea
  exact (continuous_const.mul (Real.continuous_arccos.comp
      (continuous_const.sub (continuous_id.div_const r)))).sub
    ((continuous_const.sub continuous_id).mul (Real.continuous_sqrt.comp
      (continuous_id.mul (continuous_const.sub continuous_id))))

/-- The segment width is continuous at every non-zero distance. -/
theorem continuousAt_segWidth (r1 r2 d : ℝ) (hd : d ≠ 0) :
    ContinuousAt (fun d => segWidth r1 r2 d) d := by
  unfold segWidth
  have hne : (2 : ℝ) * d ≠ 0 := by
    intro h
    exact hd (by linarith [h])
  fun_prop (disch := assumption)

/-- The middle-branch function is continuous at every non-zero distance. -/
theorem continuousAt_segSum (r1 r2 d : ℝ) (hd : d ≠ 0) :
    ContinuousAt (fun d => segSum r1 r2 d) d := by
  unfold segSum
  exact ((circleArea_continuous r1).continuousAt.comp (continuousAt_segWidth r1 r2 d hd)).add
    ((circleArea_continuous r2).continuousAt.comp (continuousAt_segWidth r2 r1 d hd))

/-- With equal radii the width formula collapses to `r - d/2`, with no
division by the distance (also at `d = 0`, where both sides are `r`). -/
theorem segWidth_same (r : ℝ) : ∀ d : ℝ, segWidth r r d = r - d / 2 := by
  intro d
  rcases eq_or_ne d 0 with rfl | hd
  · simp [segWidth]
  · simp only [segWidth]
    field_simp
    ring

/-- At the far endpoint `d = r1 + r2` both widths vanish and the
segment sum is `0`. -/
theorem segSum_at_sum (r1 r2 : ℝ) (hr1 : 0 < r1) (hr2 : 0 < r2) :
    segSum r1 r2 (r1 + r2) = 0 := by
  have hd : r1 + r2 ≠ 0 := by positivity
  have hw1 : segWidth r1 r2 (r1 + r2) = 0 := by
    simp only [segWidth]
    rw [sub_eq_zero, eq_div_iff (by positivity : (2 : ℝ) * (r1 + r2) ≠ 0)]
    ring
  have hw2 : segWidth r2 r1 (r1 + r2) = 0 := by
    simp only [segWidth]
    rw [sub_eq_zero, eq_div_iff (by positivity : (2 : ℝ) * (r1 + r2) ≠ 0)]
    ring
  simp [segSum, hw1, hw2, circleArea_zero]

end CircleIntersection
namespace CircleIntersection

/-- At the near endpoint `d = |r1 - r2|` (distinct positive radii) the
smaller circle's width is its full diameter and the larger circle's width is
`0`, so the segment sum is the smaller circle's area `π·min(r1,r2)²`. -/
theorem segSum_at_absdiff (r1 r2 : ℝ) (hr1 : 0 < r1) (hr2 : 0 < r2) (hne : r1 ≠ r2) :
    segSum r1 r2 |r1 - r2| = Real.pi * min r1 r2 * min r1 r2 := by
  rcases lt_or_gt_of_ne hne with hlt | hgt
  · -- r1 < r2: |r1 - r2| = r2 - r1, the small circle is the first
    have habs : |r1 - r2| = r2 - r1 := by
      rw [abs_of_neg (by linarith)]
      ring
    have hd : r2 - r1 ≠ 0 := by intro h; exact hne (by linarith)
    have hw1 : segWidth r1 r2 (r2 - r1) = 2 * r1 := by
      simp only [segWidth]
      field_simp
      ring
    have hw2 : segWidth r2 r1 (r2 - r1) = 0 := by
      simp only [segWidth]
      field_simp
      ring
    rw [habs]
    simp only [segSum, hw1, hw2, circleArea_zero, circleArea_full r1 (ne_of_gt hr1)]
    rw [min_eq_left (le_of_lt hlt)]
    ring
  · -- r2 < r1: symmetric
    have habs : |r1 - r2| = r1 - r2 := abs_of_pos (by linarith)
    have hd : r1 - r2 ≠ 0 := by intro h; exact hne (by linarith)
    have hw1 : segWidth r1 r2 (r1 - r2) = 0 := by
      simp only [segWidth]
      field_simp
      ring
    have hw2 : segWidth r2 r1 (r1 - r2) = 2 * r2 := by
      simp only [segWidth]
      field_simp
      ring
    rw [habs]
    simp only [segSum, hw1, hw2, circleArea_zero, circleArea_full r2 (ne_of_gt hr2)]
    rw [min_eq_right (le_of_lt hgt)]
    ring

end CircleIntersection
namespace CircleIntersection

/-- For distinct radii, `circleOverlap` agrees with the segment-sum formula
on the whole closed overlap interval, endpoints included. -/
theorem circleOverlap_eqOn_segSum (r1 r2 : ℝ) (hr1 : 0 < r1) (hr2 : 0 < r2) (hne : r1 ≠ r2) :
    Set.EqOn (circleOverlap r1 r2) (fun d => segSum r1 r2 d)
      (Set.Icc |r1 - r2| (r1 + r2)) := by
  have habs : |r1 - r2| < r1 + r2 := by
    rw [abs_sub_lt_iff]
    constructor <;> linarith
  intro x hx
  rcases eq_or_lt_of_le hx.1 with heq | hlt1
  · rw [← heq]
    simp only [circleOverlap]
    rw [if_neg (by push_neg; exact habs), if_pos le_rfl]
    exact (segSum_at_absdiff r1 r2 hr1 hr2 hne).symm
  · rcases eq_or_lt_of_le hx.2 with heq2 | hlt2
    · rw [heq2]
      simp only [circleOverlap]
      rw [if_pos le_rfl]
      exact (segSum_at_sum r1 r2 hr1 hr2).symm
    · exact circleOverlap_middle r1 r2 x hlt1 hlt2

/-- `circleArea r r` is half the disc. -/
theorem circleArea_half (r : ℝ) (hr : r ≠ 0) :
    circleArea r r = r * r * (Real.pi / 2) := by
  simp only [circleArea]
  rw [show r - r = (0 : ℝ) by ring, zero_mul,
    show 1 - r / r = (0 : ℝ) by field_simp, Real.arccos_zero]
  ring

/-- For equal radii, `circleOverlap` agrees with the segment-sum formula on
`[0, 2r]`, including the left endpoint `d = 0` where the code's nested
branch fires. -/
theorem circleOverlap_eqOn_same (r : ℝ) (hr : 0 < r) :
    Set.EqOn (circleOverlap r r) (fun d => segSum r r d) (Set.Icc (0 : ℝ) (r + r)) := by
  intro x hx
  rcases eq_or_lt_of_le hx.1 with heq | hlt1
  · rw [← heq]
    simp only [circleOverlap]
    rw [if_neg (by push_neg; linarith), if_pos (by simp)]
    simp only [segSum, segWidth_same, min_self]
    rw [show r - 0 / 2 = r by ring, circleArea_half r (ne_of_gt hr)]
    ring
  · rcases eq_or_lt_of_le hx.2 with heq2 | hlt2
    · rw [heq2]
      simp only [circleOverlap]
      rw [if_pos le_rfl]
      exact (segSum_at_sum r r hr hr).symm
    · exact circleOverlap_middle r r x (by simpa using hlt1) hlt2

/-- For equal radii the segment sum is continuous everywhere (the division
by `d` cancels). -/
theorem continuous_segSum_same (r : ℝ) : Continuous (fun d => segSum r r d) := by
  have he : (fun d => segSum r r d) =
      fun d => circleArea r (r - d / 2) + circleArea r (r - d / 2) := by
    funext d
    simp [segSum, segWidth_same]
  rw [he]
  have hinner : Continuous (fun d : ℝ => r - d / 2) :=
    continuous_const.sub (continuous_id.div_const 2)
  exact ((circleArea_continuous r).comp hinner).add ((circleArea_continuous r).comp hinner)

/-- C3 (continuity half): `circleOverlap` is continuous on the closed
overlap interval `[|r1 - r2|, r1 + r2]`. -/
theorem circleOverlap_continuousOn (r1 r2 : ℝ) (hr1 : 0 ≤ r1) (hr2 : 0 ≤ r2) :
    ContinuousOn (circleOverlap r1 r2) (Set.Icc |r1 - r2| (r1 + r2)) := by
  rcases eq_or_lt_of_le hr1 with heq1 | hp1
  · have : |r1 - r2| = r1 + r2 := by
      rw [← heq1, zero_sub, abs_neg, abs_of_nonneg hr2, zero_add]
    rw [this, Set.Icc_self]
    exact continuousOn_singleton _ _
  · rcases eq_or_lt_of_le hr2 with heq2 | hp2
    · have : |r1 - r2| = r1 + r2 := by
        rw [← heq2, sub_zero, abs_of_nonneg hr1, add_zero]
      rw [this, Set.Icc_self]
      exact continuousOn_singleton _ _
    · rcases eq_or_ne r1 r2 with rfl | hne
      · have h0 : |r1 - r1| = (0 : ℝ) := by simp
        rw [h0]
        exact ((continuous_segSum_same r1).continuousOn).congr
          (circleOverlap_eqOn_same r1 hp1)
      · have hpos : 0 < |r1 - r2| := abs_pos.mpr (sub_ne_zero.mpr hne)
        have hcont : ContinuousOn (fun d => segSum r1 r2 d)
            (Set.Icc |r1 - r2| (r1 + r2)) := fun x hx =>
          (continuousAt_segSum r1 r2 x (ne_of_gt (lt_of_lt_of_le hpos hx.1))).continuousWithinAt
        exact hcont.congr (circleOverlap_eqOn_segSum r1 r2 hp1 hp2 hne)

/-- Strictly inside the overlap interval, `circleOverlap` has the
segment-sum derivative. -/
theorem hasDerivAt_circleOverlap (r1 r2 x : ℝ) (hr1 : 0 ≤ r1) (hr2 : 0 ≤ r2)
    (hx1 : |r1 - r2| < x) (hx2 : x < r1 + r2) :
    HasDerivAt (circleOverlap r1 r2)
      (-2 * Real.sqrt (segWidth r1 r2 x * (2 * r1 - segWidth r1 r2 x))) x := by
  refine (hasDerivAt_segSum r1 r2 x hr1 hr2 hx1 hx2).congr_of_eventuallyEq ?_
  refine Filter.eventuallyEq_of_mem (Ioo_mem_nhds hx1 hx2) ?_
  intro y hy
  exact circleOverlap_middle r1 r2 y hy.1 hy.2

/-- C3 (monotonicity half): `circleOverlap` is non-increasing in the centre
distance on the closed overlap interval. -/
theorem circleOverlap_antitoneOn (r1 r2 : ℝ) (hr1 : 0 ≤ r1) (hr2 : 0 ≤ r2) :
    AntitoneOn (circleOverlap r1 r2) (Set.Icc |r1 - r2| (r1 + r2)) := by
  refine antitoneOn_of_deriv_nonpos (convex_Icc _ _)
    (circleOverlap_continuousOn r1 r2 hr1 hr2) ?_ ?_
  · rw [interior_Icc]
    intro x hx
    exact (hasDerivAt_circleOverlap r1 r2 x hr1 hr2 hx.1 hx.2).differentiableAt.differentiableWithinAt
  · rw [interior_Icc]
    intro x hx
    rw [(hasDerivAt_circleOverlap r1 r2 x hr1 hr2 hx.1 hx.2).deriv]
    have := Real.sqrt_nonneg (segWidth r1 r2 x * (2 * r1 - segWidth r1 r2 x))
    linarith

end CircleIntersection

/-- The distance between `(0,0)` and `(3,0)` is `3`. -/
theorem distance_three :
    CircleIntersection.distance ⟨0, 0⟩ ⟨3, 0⟩ = 3 := by
  simp only [CircleIntersection.distance]
  rw [show ((0 : ℝ) - 3) * ((0 : ℝ) - 3) + ((0 : ℝ) - 0) * ((0 : ℝ) - 0) = 3 ^ 2 by norm_num]
  exact Real.sqrt_sq (by norm_num)

/-- Two unit circles three apart are too far: no intersection points. -/
theorem circleCircleIntersection_disjoint :
    CircleIntersection.circleCircleIntersection ⟨0, 0, 1⟩ ⟨3, 0, 1⟩ = [] := by
  simp only [CircleIntersection.circleCircleIntersection, CircleIntersection.Circle.center]
  rw [if_pos (Or.inl (by rw [distance_three]; norm_num))]

/-- Two identical circles are "self contained": no intersection points. -/
theorem circleCircleIntersection_identical (c : CircleIntersection.Circle) :
    CircleIntersection.circleCircleIntersection c c = [] := by
  simp only [CircleIntersection.circleCircleIntersection]
  rw [if_pos (Or.inr (by rw [distance_self]; simp))]

/-- C2: `intersectionArea` of two disjoint unit circles (`d = 3 > 2`) is `0`
as the claim states, but `intersectionArea` of two identical unit circles at
`d = 0` is also `0` rather than `π·1²` (and `π ≠ 0`): the pair produces no
intersection points, and the `<2 inner points` branch's inverted containment
test (`every(distance > |Δradius|)` in place of the intended
`every(distance ≤ |Δradius|)`) fails on the smallest circle itself. -/
theorem intersectionArea_pairs :
    CircleIntersection.intersectionArea [⟨0, 0, 1⟩, ⟨3, 0, 1⟩] = 0 ∧
    CircleIntersection.intersectionArea [⟨0, 0, 1⟩, ⟨0, 0, 1⟩] = 0 ∧
    Real.pi * 1 * 1 ≠ 0 := by
  refine ⟨?_, ?_, by simp [Real.pi_ne_zero]⟩
  · refine intersectionArea_few_inner_zero _ _ ?_
    have hpts : CircleIntersection.getIntersectionPoints [⟨0, 0, 1⟩, ⟨3, 0, 1⟩] = [] := by
      simp [CircleIntersection.getIntersectionPoints, List.range_succ,
        circleCircleIntersection_disjoint]
    rw [hpts]
    simp
  · refine intersectionArea_few_inner_zero _ _ ?_
    have hpts : CircleIntersection.getIntersectionPoints [⟨0, 0, 1⟩, ⟨0, 0, 1⟩] = [] := by
      simp [CircleIntersection.getIntersectionPoints, List.range_succ,
        circleCircleIntersection_identical]
    rw [hpts]
    simp
/-- C3: for non-negative radii, `circleOverlap(r1, r2, d)` is `0` once
`d ≥ r1 + r2`, is `π·min(r1,r2)²` once `d ≤ |r1 - r2|`, equals the sum of
the two circular-segment areas of the standard two-circle decomposition on
the open interval between, and is continuous and monotonically
non-increasing in `d` on the closed interval between. -/
theorem circleOverlap_spec (r1 r2 : ℝ) (hr1 : 0 ≤ r1) (hr2 : 0 ≤ r2) :
    (∀ d, r1 + r2 ≤ d → CircleIntersection.circleOverlap r1 r2 d = 0) ∧
    (∀ d, d ≤ |r1 - r2| → CircleIntersection.circleOverlap r1 r2 d =
      Real.pi * min r1 r2 * min r1 r2) ∧
    (∀ d, |r1 - r2| < d → d < r1 + r2 → CircleIntersection.circleOverlap r1 r2 d =
      CircleIntersection.circleArea r1
        (r1 - (d * d - r2 * r2 + r1 * r1) / (2 * d)) +
      CircleIntersection.circleArea r2
        (r2 - (d * d - r1 * r1 + r2 * r2) / (2 * d))) ∧
    ContinuousOn (CircleIntersection.circleOverlap r1 r2)
      (Set.Icc |r1 - r2| (r1 + r2)) ∧
    AntitoneOn (CircleIntersection.circleOverlap r1 r2)
      (Set.Icc |r1 - r2| (r1 + r2)) := by
  refine ⟨?_, ?_, ?_, CircleIntersection.circleOverlap_continuousOn r1 r2 hr1 hr2,
    CircleIntersection.circleOverlap_antitoneOn r1 r2 hr1 hr2⟩
  · intro d hd
    simp only [CircleIntersection.circleOverlap]
    rw [if_pos hd]
  · intro d hd
    by_cases hfar : r1 + r2 ≤ d
    · have habs_le : |r1 - r2| ≤ r1 + r2 := by
        rw [abs_le]
        constructor <;> linarith
      have hmin : min r1 r2 = 0 := by
        have h4 : r1 * r2 = 0 := by nlinarith [sq_abs (r1 - r2)]
        rcases mul_eq_zero.mp h4 with h | h
        · rw [h]; exact min_eq_left hr2
        · rw [h]; exact min_eq_right hr1
      simp only [CircleIntersection.circleOverlap]
      rw [if_pos hfar, hmin]
      ring
    · simp only [CircleIntersection.circleOverlap]
      rw [if_neg hfar, if_pos hd]
  · intro d hd1 hd2
    have h := CircleIntersection.circleOverlap_middle r1 r2 d hd1 hd2
    rw [h]
    simp only [CircleIntersection.segSum, CircleIntersection.segWidth]

/-- Witness for C3 at `r1 = r2 = 1`. -/
theorem circleOverlap_spec_witness :
    (∀ d, (1 : ℝ) + 1 ≤ d → CircleIntersection.circleOverlap 1 1 d = 0) ∧
    (∀ d, d ≤ |(1 : ℝ) - 1| → CircleIntersection.circleOverlap 1 1 d =
      Real.pi * min (1 : ℝ) 1 * min (1 : ℝ) 1) ∧
    (∀ d, |(1 : ℝ) - 1| < d → d < 1 + 1 → CircleIntersection.circleOverlap 1 1 d =
      CircleIntersection.circleArea 1
        (1 - (d * d - 1 * 1 + 1 * 1) / (2 * d)) +
      CircleIntersection.circleArea 1
        (1 - (d * d - 1 * 1 + 1 * 1) / (2 * d))) ∧
    ContinuousOn (CircleIntersection.circleOverlap 1 1)
      (Set.Icc |(1 : ℝ) - 1| (1 + 1)) ∧
    AntitoneOn (CircleIntersection.circleOverlap 1 1)
      (Set.Icc |(1 : ℝ) - 1| (1 + 1)) :=
  circleOverlap_spec 1 1 (by norm_num) (by norm_num)
